import Mathlib

set_option maxRecDepth 8000

attribute [local semireducible] Rat.add Rat.mul Rat.sub Rat.inv

/-!
Verification of the safe expression evaluator in `calculator_logic.py`
(class `CalculatorLogic`).

Modelling conventions:
* Python floats are modelled as exact rationals (`ℚ`); the float constants
  `math.pi` and `math.e` are embedded as the exact rational values of the
  IEEE-754 doubles CPython uses.
* Irrational float results of the transcendental primitives (`math.sin`,
  `math.tan`, `math.log`, inexact roots, ...) are modelled symbolically by
  the `PyVal.irr` constructor: no verified property depends on their
  numeric value, only on which argument reaches the primitive.
* The restricted `eval(expr, safe_env, {})` call is modelled by a lexer,
  a parser and an evaluator for the Python expression grammar that is
  reachable through the preprocessing character filter: numeric literals,
  `+ - * / % **`, unary sign, parentheses, tuples, calls, names and
  attribute access.  Python exception classes are modelled by `PyErr`.
-/

/-- ASCII whitespace stripped by Python `str.strip()` (the inputs the claims
exercise are ASCII). -/
def pyIsSpace (c : Char) : Bool :=
  c == ' ' || c == '\t' || c == '\n' || c == '\r' || c == '\x0b' || c == '\x0c'

/-- List-level model of Python `str.strip()`. -/
def pyStripL (l : List Char) : List Char :=
  ((l.dropWhile pyIsSpace).reverse.dropWhile pyIsSpace).reverse

/-- Model of Python `str.strip()`. -/
def pyStrip (s : String) : String := ⟨pyStripL s.data⟩

/-- ASCII uppercase of one character, as Python `str.upper()` does on ASCII. -/
def pyUpperChar (c : Char) : Char :=
  if 'a' ≤ c && c ≤ 'z' then Char.ofNat (c.toNat - 32) else c

/-- Model of Python `str.upper()` (ASCII fragment). -/
def pyUpper (s : String) : String := ⟨s.data.map pyUpperChar⟩

/-- Model of Python `str.replace(c, r)` for a single-character pattern `c`. -/
def replChar (c : Char) (r : List Char) (l : List Char) : List Char :=
  (l.map (fun d => if d = c then r else [d])).flatten

/-- Character whitelist of `_preprocess` (the regular expression
`[0-9a-zA-Z_+\-*/%.(),\s]*` at line 76 of `calculator_logic.py`). -/
def allowedChar (c : Char) : Bool :=
  c.isDigit || c.isAlpha || c == '_' || c == '+' || c == '-' || c == '*' ||
    c == '/' || c == '%' || c == '.' || c == '(' || c == ')' || c == ',' ||
    pyIsSpace c

/-- Sentinel returned by `_preprocess` for disallowed characters. -/
def invalidCharsSentinel : String := "__INVALID_CHARS__"

/-- Embedding of `CalculatorLogic._preprocess` (lines 59-79): strip, replace
the display glyphs and the caret, then check the character whitelist. -/
def preprocess (expr : String) : String :=
  let s1 := pyStripL expr.data
  let s2 := replChar '×' ['*'] s1
  let s3 := replChar '÷' ['/'] s2
  let s4 := replChar '^' ['*', '*'] s3
  if s4.all allowedChar then ⟨s4⟩ else invalidCharsSentinel

/-- Exact rational value of the IEEE-754 double `math.pi`. -/
def pyPi : ℚ := 884279719003555 / 281474976710656

/-- Exact rational value of the IEEE-754 double `math.e`. -/
def pyE : ℚ := 6121026514868073 / 2251799813685248

/-- Model of the Python exceptions that `evaluate` catches, plus the two
sentinel outcomes of preprocessing. -/
inductive PyErr where
  | emptyInput
  | invalidChars
  | zeroDiv
  | valueErr (msg : String)
  | parseErr
  | typeErr
  | nameErr
  | attrErr
deriving DecidableEq, Repr

/-- Model of the Python values the restricted `eval` can produce.
`irr c d` stands for the float value `c * d` where `d` is an irrational
primitive application rendered as text; `obj` is an opaque host object
(such as the class reached by `e.__class__`) carrying its display string;
`builtin` is one of the whitelisted callables of `safe_env`. -/
inductive PyVal where
  | int (n : ℤ)
  | float (q : ℚ)
  | irr (coeff : ℚ) (descr : String)
  | tuple (vs : List PyVal)
  | obj (rep : String)
  | builtin (fname : String)

/-- Floor-style remainder, the semantics of Python `%` on numbers: the
result has the sign of the divisor. -/
def qfmod (a b : ℚ) : ℚ := a - b * ⌊a / b⌋

/-- Model of Python `int()` applied to a float: truncation toward zero. -/
def pyTrunc (q : ℚ) : ℤ := if 0 ≤ q then ⌊q⌋ else -⌊-q⌋

/-- Round to nearest integer, ties to even: the rounding used both by
Python `round()` and by the `%.12g` format conversion. -/
def roundHalfEven (q : ℚ) : ℤ :=
  let n := ⌊q⌋
  let f := q - n
  if f < 1/2 then n else if 1/2 < f then n + 1 else if n % 2 = 0 then n else n + 1

/-- Decimal digit as a character. -/
def digitChar10 (d : ℕ) : Char := Char.ofNat (48 + d)

/-- Little-endian base-10 digits with explicit fuel, so that terms reduce
definitionally; agrees with `Nat.digits 10` (see `natDigits10_eq`). -/
def natDigitsAux : ℕ → ℕ → List ℕ
  | 0, _ => []
  | fuel + 1, n => if n = 0 then [] else n % 10 :: natDigitsAux fuel (n / 10)

/-- Little-endian base-10 digits of a natural number. -/
def natDigits10 (n : ℕ) : List ℕ := natDigitsAux (n + 1) n

/-- Base-10 logarithm (for positive arguments) computed from the digit list. -/
def natLog10 (n : ℕ) : ℕ := (natDigits10 n).length - 1

/-- Decimal representation of a natural number, as Python `str` renders it. -/
def natDecRepr (n : ℕ) : String :=
  if n = 0 then "0" else ⟨(natDigits10 n).reverse.map digitChar10⟩

/-- Decimal representation of an integer, as Python `str` renders it. -/
def intDecRepr (n : ℤ) : String :=
  if n < 0 then "-" ++ natDecRepr (-n).toNat else natDecRepr n.toNat

/-- Decimal exponent: for `0 < q` this is the unique `e` with
`10 ^ e ≤ q < 10 ^ (e + 1)`. -/
def decExp (q : ℚ) : ℤ :=
  let e0 : ℤ := (natLog10 q.num.toNat : ℤ) - (natLog10 q.den : ℤ)
  if (10 : ℚ) ^ e0 ≤ q then e0 else e0 - 1

/-- Drop trailing `'0'` characters. -/
def stripZeros (l : List Char) : List Char :=
  (l.reverse.dropWhile (· == '0')).reverse

/-- Big-endian decimal digit characters of a natural number. -/
def digitsBE (m : ℕ) : List Char := (natDigits10 m).reverse.map digitChar10

/-- Exponent suffix of the scientific style of `%g`: sign and at least two
exponent digits. -/
def expSuffix (e : ℤ) : String :=
  let a := (if e < 0 then -e else e).toNat
  (if e < 0 then "e-" else "e+") ++ (if a < 10 then "0" ++ natDecRepr a else natDecRepr a)

/-- Twelve-significant-digit decomposition of a positive rational: the
rounded significand (a 12-digit integer, ties to even) and the decimal
exponent after a possible rounding carry. -/
def sig12 (q : ℚ) : ℤ × ℤ :=
  let e0 := decExp q
  let m0 := roundHalfEven (q * (10 : ℚ) ^ ((11 : ℤ) - e0))
  if m0 = 10 ^ 12 then (10 ^ 11, e0 + 1) else (m0, e0)

/-- The `%.12g` conversion for a positive rational: round to 12 significant
digits (ties to even), then render in fixed or scientific style with the
trailing zeros of the fractional part removed. -/
def format12gPos (q : ℚ) : String :=
  let m := (sig12 q).1
  let e := (sig12 q).2
  let ds := digitsBE m.toNat
  if e < -4 ∨ 12 ≤ e then
    let frac := stripZeros (ds.drop 1)
    String.mk (ds.take 1 ++ if frac = [] then [] else '.' :: frac) ++ expSuffix e
  else if 0 ≤ e then
    let fp := stripZeros (ds.drop (e.toNat + 1))
    String.mk (ds.take (e.toNat + 1) ++ if fp = [] then [] else '.' :: fp)
  else
    String.mk ('0' :: '.' :: (List.replicate (-e - 1).toNat '0' ++ stripZeros ds))

/-- The `%.12g` conversion (the f-string `.12g` at line 56 of the source). -/
def format12g (q : ℚ) : String :=
  if q < 0 then "-" ++ format12gPos (-q) else format12gPos q

mutual

/-- Structural size of a value (bounds the tuple nesting depth). -/
def pyValSize : PyVal → ℕ
  | .tuple vs => 1 + pyValListSize vs
  | _ => 1

/-- Structural size of a value list. -/
def pyValListSize : List PyVal → ℕ
  | [] => 0
  | v :: vs => pyValSize v + pyValListSize vs

end

mutual

/-- Fuel-driven worker for `pyStrVal` (the fuel only has to dominate the
tuple nesting depth). -/
def pyStrValF : ℕ → PyVal → String
  | 0, _ => ""
  | fuel + 1, v =>
    match v with
    | .int n => intDecRepr n
    | .float q => format12g q
    | .irr c d => "<float " ++ format12g c ++ "*" ++ d ++ ">"
    | .tuple vs =>
      "(" ++ String.intercalate ", " (pyStrValListF fuel vs) ++
        (if vs.length = 1 then ",)" else ")")
    | .obj rep => rep
    | .builtin f => "<bound method CalculatorLogic._" ++ f ++ ">"

/-- Render each element of a tuple display. -/
def pyStrValListF : ℕ → List PyVal → List String
  | _, [] => []
  | fuel, v :: vs => pyStrValF fuel v :: pyStrValListF fuel vs

end

/-- Display string of a Python value as `str()` renders it, for the
non-float fallback branch of `_format_result`.  The display text of bound
methods and of symbolic irrational floats is modelled by placeholders: no
verified claim formats those values. -/
def pyStrVal (v : PyVal) : String := pyStrValF (pyValSize v) v

/-- Embedding of `CalculatorLogic._format_result` (lines 47-57): int-valued
floats render through `str(int(result))`, other floats through `.12g`,
non-floats through `str`. -/
def format_result (v : PyVal) : String :=
  match v with
  | .float q => if q.den = 1 then intDecRepr q.num else format12g q
  | .irr c d => "<float " ++ format12g c ++ "*" ++ d ++ ">"
  | v => pyStrVal v

example : preprocess " 2^8 " = "2**8" := by decide
example : preprocess "2×3÷4" = "2*3/4" := by decide
example : preprocess "§" = invalidCharsSentinel := by decide
example : preprocess "e.__class__" = "e.__class__" := by decide
example : natDecRepr 120 = "120" := by decide
example : intDecRepr (-8) = "-8" := by decide

/-! ### Lexer for the reachable expression grammar -/

/-- Tokens of the Python expression fragment reachable through the
character whitelist. -/
inductive Tok where
  | tint (n : ℕ)
  | tfloat (q : ℚ)
  | tid (s : String)
  | top (s : String)
deriving DecidableEq, Repr

/-- Numeric value of a digit character. -/
def digitVal (c : Char) : ℕ := c.toNat - 48

/-- Split a leading run of digit characters. -/
def readDigits : List Char → List ℕ × List Char
  | [] => ([], [])
  | c :: cs =>
    if c.isDigit then
      let (ds, r) := readDigits cs
      (digitVal c :: ds, r)
    else ([], c :: cs)

/-- Natural number denoted by a big-endian digit list. -/
def natOfDigitsBE (ds : List ℕ) : ℕ := ds.foldl (fun a d => a * 10 + d) 0

/-- Value of a numeric literal with integer part, fraction part and decimal
exponent. -/
def mkFloatVal (ip fp : List ℕ) (ex : ℤ) : ℚ :=
  ((natOfDigitsBE ip : ℚ) + (natOfDigitsBE fp : ℚ) / (10 : ℚ) ^ fp.length) * (10 : ℚ) ^ ex

/-- Read a well-formed exponent part `e[+-]?digits`; `none` when the input
does not start with one. -/
def readExpPart : List Char → Option (ℤ × List Char)
  | c :: cs =>
    if c = 'e' ∨ c = 'E' then
      match cs with
      | '+' :: r =>
        match readDigits r with
        | (d :: ds, r2) => some ((natOfDigitsBE (d :: ds) : ℤ), r2)
        | _ => none
      | '-' :: r =>
        match readDigits r with
        | (d :: ds, r2) => some (-(natOfDigitsBE (d :: ds) : ℤ), r2)
        | _ => none
      | r =>
        match readDigits r with
        | (d :: ds, r2) => some ((natOfDigitsBE (d :: ds) : ℤ), r2)
        | _ => none
    else none
  | [] => none

/-- Lex one numeric literal (the input starts with a digit, or with a dot
followed by a digit). -/
def lexNumber (cs : List Char) : Option (Tok × List Char) :=
  let (ip, r1) := readDigits cs
  match r1 with
  | '.' :: r2 =>
    let (fp, r3) := readDigits r2
    if ip = [] ∧ fp = [] then none
    else
      match readExpPart r3 with
      | some (ex, r4) => some (.tfloat (mkFloatVal ip fp ex), r4)
      | none => some (.tfloat (mkFloatVal ip fp 0), r3)
  | _ =>
    match readExpPart r1 with
    | some (ex, r4) => some (.tfloat (mkFloatVal ip [] ex), r4)
    | none => if ip = [] then none else some (.tint (natOfDigitsBE ip), r1)

/-- Whether the next character is a digit. -/
def digitFollows : List Char → Bool
  | d :: _ => d.isDigit
  | [] => false

/-- Fuel-driven tokenizer. -/
def lexGo : ℕ → List Char → Option (List Tok)
  | 0, _ => none
  | fuel + 1, cs =>
    match cs with
    | [] => some []
    | c :: rest =>
      if pyIsSpace c then lexGo fuel rest
      else if c.isDigit || (c = '.' && digitFollows rest) then
        match lexNumber (c :: rest) with
        | some (t, r) => (lexGo fuel r).map (t :: ·)
        | none => none
      else if c.isAlpha || c = '_' then
        let (idcs, r) := (c :: rest).span (fun d => d.isAlphanum || d = '_')
        (lexGo fuel r).map (Tok.tid ⟨idcs⟩ :: ·)
      else if c = '*' then
        match rest with
        | '*' :: r => (lexGo fuel r).map (Tok.top "**" :: ·)
        | _ => (lexGo fuel rest).map (Tok.top "*" :: ·)
      else if c = '+' || c = '-' || c = '/' || c = '%' || c = '(' || c = ')' ||
          c = ',' || c = '.' then
        (lexGo fuel rest).map (Tok.top (String.singleton c) :: ·)
      else none

/-- Tokenize a preprocessed expression string. -/
def lexString (s : String) : Option (List Tok) := lexGo (s.data.length + 1) s.data

/-! ### Parser (Python precedence: `**` right-associative and tighter than
unary sign, unary sign tighter than `* / %`, those tighter than `+ -`) -/

/-- Binary operators of the reachable grammar. -/
inductive Bop where
  | add | sub | mul | div | mod | pow
deriving DecidableEq, Repr

/-- Abstract syntax of the reachable Python expression fragment. -/
inductive Expr where
  | intLit (n : ℕ)
  | floatLit (q : ℚ)
  | name (s : String)
  | attr (e : Expr) (field : String)
  | call (f : Expr) (args : List Expr)
  | tup (es : List Expr)
  | neg (e : Expr)
  | pos (e : Expr)
  | bin (op : Bop) (l r : Expr)

mutual

/-- Parse an additive expression. -/
def parseAdd : ℕ → List Tok → Option (Expr × List Tok)
  | 0, _ => none
  | fuel + 1, ts => do
    let (l, r) ← parseMul fuel ts
    parseAddRest fuel l r

/-- Left-associative chain of `+` and `-`. -/
def parseAddRest : ℕ → Expr → List Tok → Option (Expr × List Tok)
  | 0, _, _ => none
  | fuel + 1, acc, ts =>
    match ts with
    | .top "+" :: r => do
      let (e, r2) ← parseMul fuel r
      parseAddRest fuel (.bin .add acc e) r2
    | .top "-" :: r => do
      let (e, r2) ← parseMul fuel r
      parseAddRest fuel (.bin .sub acc e) r2
    | _ => some (acc, ts)

/-- Parse a multiplicative expression. -/
def parseMul : ℕ → List Tok → Option (Expr × List Tok)
  | 0, _ => none
  | fuel + 1, ts => do
    let (l, r) ← parseUnary fuel ts
    parseMulRest fuel l r

/-- Left-associative chain of `*`, `/` and `%`. -/
def parseMulRest : ℕ → Expr → List Tok → Option (Expr × List Tok)
  | 0, _, _ => none
  | fuel + 1, acc, ts =>
    match ts with
    | .top "*" :: r => do
      let (e, r2) ← parseUnary fuel r
      parseMulRest fuel (.bin .mul acc e) r2
    | .top "/" :: r => do
      let (e, r2) ← parseUnary fuel r
      parseMulRest fuel (.bin .div acc e) r2
    | .top "%" :: r => do
      let (e, r2) ← parseUnary fuel r
      parseMulRest fuel (.bin .mod acc e) r2
    | _ => some (acc, ts)

/-- Parse a unary-sign expression. -/
def parseUnary : ℕ → List Tok → Option (Expr × List Tok)
  | 0, _ => none
  | fuel + 1, ts =>
    match ts with
    | .top "-" :: r => (parseUnary fuel r).map (fun p => (.neg p.1, p.2))
    | .top "+" :: r => (parseUnary fuel r).map (fun p => (.pos p.1, p.2))
    | _ => parsePower fuel ts

/-- Parse a power expression; the exponent is a unary expression, which
makes `**` right-associative and lets it bind tighter than a leading
unary minus. -/
def parsePower : ℕ → List Tok → Option (Expr × List Tok)
  | 0, _ => none
  | fuel + 1, ts => do
    let (b, r) ← parsePostfix fuel ts
    match r with
    | .top "**" :: r2 => do
      let (e, r3) ← parseUnary fuel r2
      some (.bin .pow b e, r3)
    | _ => some (b, r)

/-- Parse an atom followed by call/attribute trailers. -/
def parsePostfix : ℕ → List Tok → Option (Expr × List Tok)
  | 0, _ => none
  | fuel + 1, ts => do
    let (a, r) ← parseAtom fuel ts
    parseTrailers fuel a r

/-- Parse call and attribute-access trailers. -/
def parseTrailers : ℕ → Expr → List Tok → Option (Expr × List Tok)
  | 0, _, _ => none
  | fuel + 1, acc, ts =>
    match ts with
    | .top "." :: .tid f :: r => parseTrailers fuel (.attr acc f) r
    | .top "(" :: r =>
      match r with
      | .top ")" :: r2 => parseTrailers fuel (.call acc []) r2
      | _ => do
        let (args, r2) ← parseArgs fuel r
        match r2 with
        | .top ")" :: r3 => parseTrailers fuel (.call acc args) r3
        | _ => none
    | _ => some (acc, ts)

/-- Parse a nonempty comma-separated argument list (a trailing comma
before the closing parenthesis is allowed, as in Python). -/
def parseArgs : ℕ → List Tok → Option (List Expr × List Tok)
  | 0, _ => none
  | fuel + 1, ts => do
    let (e, r) ← parseAdd fuel ts
    match r with
    | .top "," :: r2 =>
      match r2 with
      | .top ")" :: _ => some ([e], r2)
      | _ => do
        let (es, r3) ← parseArgs fuel r2
        some (e :: es, r3)
    | _ => some ([e], r)

/-- Parse a comma-separated expression list, reporting whether a comma was
seen (which makes the result a tuple display). -/
def parseListish : ℕ → List Tok → Option (List Expr × Bool × List Tok)
  | 0, _ => none
  | fuel + 1, ts => do
    let (e, r) ← parseAdd fuel ts
    match r with
    | .top "," :: r2 =>
      match r2 with
      | .top ")" :: _ => some ([e], true, r2)
      | [] => some ([e], true, [])
      | _ => do
        let (es, _, r3) ← parseListish fuel r2
        some (e :: es, true, r3)
    | _ => some ([e], false, r)

/-- Parse an atom: literal, name, or parenthesized expression / tuple
display. -/
def parseAtom : ℕ → List Tok → Option (Expr × List Tok)
  | 0, _ => none
  | fuel + 1, ts =>
    match ts with
    | .tint n :: r => some (.intLit n, r)
    | .tfloat q :: r => some (.floatLit q, r)
    | .tid s :: r => some (.name s, r)
    | .top "(" :: r =>
      match r with
      | .top ")" :: r2 => some (.tup [], r2)
      | _ => do
        let (es, comma, r2) ← parseListish fuel r
        match r2 with
        | .top ")" :: r3 =>
          match es, comma with
          | [e], false => some (e, r3)
          | _, _ => some (.tup es, r3)
        | _ => none
    | _ => none

end

/-- Parse a full token list (the whole input must be consumed); a bare
comma-separated list at top level is a tuple display, as in Python
`eval`. -/
def parseTop (fuel : ℕ) (ts : List Tok) : Option Expr := do
  let (es, comma, r) ← parseListish fuel ts
  match r with
  | [] =>
    match es, comma with
    | [e], false => some e
    | _, _ => some (.tup es)
  | _ => none

/-- Parse a preprocessed expression string. -/
def parseString (s : String) : Option Expr := do
  let ts ← lexString s
  parseTop (10 * ts.length + 10) ts

/-! ### The whitelisted function library (`safe_env`) and Python value
operations -/

/-- CPython display string of the `float` class object. -/
def floatClassRepr : String := "<class 'float'>"

/-- CPython display string of the `int` class object. -/
def intClassRepr : String := "<class 'int'>"

/-- Model of `float()` applied to an evaluated value.  Coercing a symbolic
irrational float is outside the model (no verified claim needs it). -/
def toFloatEx : PyVal → Except PyErr ℚ
  | .int n => .ok (n : ℚ)
  | .float q => .ok q
  | _ => .error .typeErr

/-- Model of `int()` applied to an evaluated value: floats truncate toward
zero. -/
def pyIntEx : PyVal → Except PyErr ℤ
  | .int n => .ok n
  | .float q => .ok (pyTrunc q)
  | _ => .error .typeErr

/-- Embedding of `CalculatorLogic._to_radians` (lines 42-45), with exact
rational arithmetic in place of float rounding. -/
def toRadians (mode : String) (x : ℚ) : ℚ :=
  if mode = "DEG" then x * pyPi / 180 else x

/-- Symbolic irrational float produced by a transcendental primitive. -/
def mkIrr (fn : String) (args : List ℚ) : PyVal :=
  .irr 1 (fn ++ "(" ++ String.intercalate ", " (args.map toString) ++ ")")

/-- Embedding of `CalculatorLogic._sin` (line 84). -/
def srcSin (mode : String) (x : PyVal) : Except PyErr PyVal := do
  let a ← toFloatEx x
  .ok (mkIrr "sin" [toRadians mode a])

/-- Embedding of `CalculatorLogic._cos` (line 85). -/
def srcCos (mode : String) (x : PyVal) : Except PyErr PyVal := do
  let a ← toFloatEx x
  .ok (mkIrr "cos" [toRadians mode a])

/-- The singularity test of `CalculatorLogic._tan` (lines 89-96), on the
pre-conversion angle.  The literal `1e-12` is modelled as the exact
rational `10⁻¹²`. -/
def tanCheck (mode : String) (angle : ℚ) : Bool :=
  if mode = "DEG" then decide (|qfmod angle 180 - 90| < 1/10^12)
  else decide (|qfmod (angle - pyPi/2) pyPi| < 1/10^12)

/-- Embedding of `CalculatorLogic._tan` (lines 87-97). -/
def srcTan (mode : String) (x : PyVal) : Except PyErr PyVal := do
  let angle ← toFloatEx x
  if tanCheck mode angle then .error (.valueErr "Domain Error")
  else .ok (mkIrr "tan" [toRadians mode angle])

/-- Embedding of `CalculatorLogic._ln` (lines 99-103). -/
def srcLn (x : PyVal) : Except PyErr PyVal := do
  let a ← toFloatEx x
  if a ≤ 0 then .error (.valueErr "Domain Error") else .ok (mkIrr "log" [a])

/-- Embedding of `CalculatorLogic._log10` (lines 105-109). -/
def srcLog10 (x : PyVal) : Except PyErr PyVal := do
  let a ← toFloatEx x
  if a ≤ 0 then .error (.valueErr "Domain Error") else .ok (mkIrr "log10" [a])

/-- Embedding of `CalculatorLogic._log` (lines 111-120). -/
def srcLog (x b : PyVal) : Except PyErr PyVal := do
  let a ← toFloatEx x
  let base ← toFloatEx b
  if a ≤ 0 ∨ base ≤ 0 ∨ base = 1 then .error (.valueErr "Domain Error")
  else .ok (mkIrr "log" [a, base])

/-- Exact `k`-th root of a nonnegative rational, when it exists. -/
def exactNthRoot (q : ℚ) (k : ℕ) : Option ℚ :=
  let a := q.num.toNat
  let b := q.den
  let ra := Nat.findGreatest (fun r => r ^ k ≤ a) a
  let rb := Nat.findGreatest (fun r => r ^ k ≤ b) b
  if ra ^ k = a ∧ rb ^ k = b then some ((ra : ℚ) / (rb : ℚ)) else none

/-- Model of `x ** (1 / n)` for `x ≥ 0`, `n ≥ 1`, under the exact-real
idealization of float power: exact when the real `n`-th root is rational
(which covers every root value the claims evaluate), symbolic otherwise. -/
def rootVal (x : ℚ) (n : ℕ) : PyVal :=
  match exactNthRoot x n with
  | some r => .float r
  | none => .irr 1 ("root(" ++ toString x ++ ", " ++ toString n ++ ")")

/-- Negation of a numeric value (used for the odd root of a negative
number in `_root`; identity on non-numeric values, which cannot occur
there). -/
def negVal : PyVal → PyVal
  | .int n => .int (-n)
  | .float q => .float (-q)
  | .irr c d => .irr (-c) d
  | v => v

/-- Embedding of `CalculatorLogic._sqrt` (lines 122-126). -/
def srcSqrt (x : PyVal) : Except PyErr PyVal := do
  let a ← toFloatEx x
  if a < 0 then .error (.valueErr "Complex Result") else .ok (rootVal a 2)

/-- Embedding of `CalculatorLogic._root` (lines 128-144): note that the
index is truncated to an integer by `int(n)` before any check. -/
def srcRoot (x n : PyVal) : Except PyErr PyVal := do
  let a ← toFloatEx x
  let ni ← pyIntEx n
  if ni ≤ 0 then .error (.valueErr "Invalid Root")
  else if a < 0 then
    if ni % 2 = 0 then .error (.valueErr "Complex Result")
    else .ok (negVal (rootVal (-a) ni.toNat))
  else .ok (rootVal a ni.toNat)

/-- Embedding of `CalculatorLogic._fact` (lines 146-153). -/
def srcFact (x : PyVal) : Except PyErr PyVal := do
  let q ← toFloatEx x
  if q.den ≠ 1 then .error (.valueErr "Factorial needs integer")
  else if q.num < 0 then .error (.valueErr "Domain Error")
  else .ok (.int (Nat.factorial q.num.toNat))

/-- Embedding of `CalculatorLogic._npr` (lines 155-163). -/
def srcNpr (x y : PyVal) : Except PyErr PyVal := do
  let qn ← toFloatEx x
  let qr ← toFloatEx y
  if qn.den ≠ 1 ∨ qr.den ≠ 1 then .error (.valueErr "nPr needs integers")
  else if qn.num < 0 ∨ qr.num < 0 ∨ qn.num < qr.num then .error (.valueErr "Domain Error")
  else .ok (.int (Nat.factorial qn.num.toNat / Nat.factorial (qn.num - qr.num).toNat))

/-- Embedding of `CalculatorLogic._ncr` (lines 165-173). -/
def srcNcr (x y : PyVal) : Except PyErr PyVal := do
  let qn ← toFloatEx x
  let qr ← toFloatEx y
  if qn.den ≠ 1 ∨ qr.den ≠ 1 then .error (.valueErr "nCr needs integers")
  else if qn.num < 0 ∨ qr.num < 0 ∨ qn.num < qr.num then .error (.valueErr "Domain Error")
  else .ok (.int (Nat.choose qn.num.toNat qr.num.toNat))

/-- Model of the builtin `abs`. -/
def srcAbs : PyVal → Except PyErr PyVal
  | .int n => .ok (.int |n|)
  | .float q => .ok (.float |q|)
  | .irr c d => .ok (.irr |c| d)
  | _ => .error .typeErr

/-- Model of the builtin `round` on one argument (banker's rounding,
returning an int). -/
def srcRound : PyVal → Except PyErr PyVal
  | .int n => .ok (.int n)
  | .float q => .ok (.int (roundHalfEven q))
  | _ => .error .typeErr

/-- Model of `math.exp` (symbolic result; no verified claim inspects its
value). -/
def srcExp (x : PyVal) : Except PyErr PyVal := do
  let a ← toFloatEx x
  .ok (mkIrr "exp" [a])

/-- Python float power.  Integral exponents are exact; a fractional
exponent of a positive base is exact when the real value is rational and
symbolic otherwise; a fractional exponent of a negative base yields a
complex number in Python 3, modelled as an opaque object. -/
def qpowF (a b : ℚ) : Except PyErr PyVal :=
  if b.den = 1 then
    if 0 ≤ b.num then .ok (.float (a ^ b.num.toNat))
    else if a = 0 then .error .zeroDiv
    else .ok (.float (a ^ b.num))
  else if a = 0 then
    if 0 < b then .ok (.float 0) else .error .zeroDiv
  else if a < 0 then .ok (.obj "<complex>")
  else
    match exactNthRoot (a ^ b.num) b.den with
    | some r => .ok (.float r)
    | none => .ok (.irr 1 ("pow(" ++ toString a ++ ", " ++ toString b ++ ")"))

/-- Numeric coercion for a binary operation: the rational values and
whether both operands were ints. -/
def numPair : PyVal → PyVal → Option (ℚ × ℚ × Bool)
  | .int a, .int b => some ((a : ℚ), (b : ℚ), true)
  | .int a, .float b => some ((a : ℚ), b, false)
  | .float a, .int b => some (a, (b : ℚ), false)
  | .float a, .float b => some (a, b, false)
  | _, _ => none

/-- Wrap a numeric result: int when both operands were ints (and the value
is integral, as for `+ - * %`), float otherwise. -/
def mkNum (bothInt : Bool) (q : ℚ) : PyVal :=
  if bothInt then .int q.num else .float q

/-- Python `**` on evaluated values. -/
def pyPow (x y : PyVal) : Except PyErr PyVal :=
  match x, y with
  | .int a, .int b =>
    if 0 ≤ b then .ok (.int (a ^ b.toNat))
    else if a = 0 then .error .zeroDiv
    else .ok (.float ((a : ℚ) ^ b))
  | x, y =>
    match numPair x y with
    | some (a, b, _) => qpowF a b
    | none => .error .typeErr

/-- Python binary arithmetic on evaluated values: `/` is true division
(always float), `%` is floor-style remainder. -/
def pyBin (op : Bop) (x y : PyVal) : Except PyErr PyVal :=
  match op with
  | .pow => pyPow x y
  | op =>
    match numPair x y with
    | none => .error .typeErr
    | some (a, b, bothInt) =>
      match op with
      | .add => .ok (mkNum bothInt (a + b))
      | .sub => .ok (mkNum bothInt (a - b))
      | .mul => .ok (mkNum bothInt (a * b))
      | .div => if b = 0 then .error .zeroDiv else .ok (.float (a / b))
      | .mod => if b = 0 then .error .zeroDiv else .ok (mkNum bothInt (qfmod a b))
      | .pow => .error .typeErr

/-- Python unary minus on an evaluated value. -/
def pyNeg : PyVal → Except PyErr PyVal
  | .int n => .ok (.int (-n))
  | .float q => .ok (.float (-q))
  | .irr c d => .ok (.irr (-c) d)
  | _ => .error .typeErr

/-- Python unary plus on an evaluated value. -/
def pyPos : PyVal → Except PyErr PyVal
  | .int n => .ok (.int n)
  | .float q => .ok (.float q)
  | .irr c d => .ok (.irr c d)
  | _ => .error .typeErr

/-- The callable names bound in `safe_env` (lines 196-227). -/
def builtinNames : List String :=
  ["abs", "round", "pow", "sin", "cos", "tan", "ln", "log", "log10",
   "sqrt", "root", "fact", "nPr", "nCr", "exp"]

/-- Name resolution against `safe_env`: the two constants, the whitelisted
callables, and `NameError` for everything else (`__builtins__` is `None`,
so no other name resolves). -/
def lookupName (s : String) : Except PyErr PyVal :=
  if s = "pi" then .ok (.float pyPi)
  else if s = "e" then .ok (.float pyE)
  else if builtinNames.contains s then .ok (.builtin s)
  else .error .nameErr

/-- Model of Python attribute lookup for the attribute chains the claims
exercise; every other attribute is modelled as `AttributeError`, which
`evaluate` converts to the generic invalid-expression message exactly as
CPython's `AttributeError` would be. -/
def pyGetattr : PyVal → String → Except PyErr PyVal
  | .float _, f => if f = "__class__" then .ok (.obj floatClassRepr) else .error .attrErr
  | .int _, f => if f = "__class__" then .ok (.obj intClassRepr) else .error .attrErr
  | _, _ => .error .attrErr

/-- Dispatch of a call to a whitelisted callable; an argument count that
matches no signature raises `TypeError` in Python. -/
def applyBuiltin (mode : String) (f : String) (args : List PyVal) : Except PyErr PyVal :=
  match f, args with
  | "abs", [x] => srcAbs x
  | "round", [x] => srcRound x
  | "pow", [x, y] => pyPow x y
  | "sin", [x] => srcSin mode x
  | "cos", [x] => srcCos mode x
  | "tan", [x] => srcTan mode x
  | "ln", [x] => srcLn x
  | "log", [x] => srcLog x (.int 10)
  | "log", [x, b] => srcLog x b
  | "log10", [x] => srcLog10 x
  | "sqrt", [x] => srcSqrt x
  | "root", [x] => srcRoot x (.int 2)
  | "root", [x, n] => srcRoot x n
  | "fact", [x] => srcFact x
  | "nPr", [x, y] => srcNpr x y
  | "nCr", [x, y] => srcNcr x y
  | "exp", [x] => srcExp x
  | _, _ => .error .typeErr

mutual

/-- Fuel-driven evaluator for the reachable expression grammar, the model
of CPython evaluating the parsed expression in `safe_env`. -/
def evalExpr (mode : String) : ℕ → Expr → Except PyErr PyVal
  | 0, _ => .error .typeErr
  | fuel + 1, e =>
    match e with
    | .intLit n => .ok (.int n)
    | .floatLit q => .ok (.float q)
    | .name s => lookupName s
    | .attr e f => do
      let v ← evalExpr mode fuel e
      pyGetattr v f
    | .call f args => do
      let vf ← evalExpr mode fuel f
      let vs ← evalArgs mode fuel args
      match vf with
      | .builtin b => applyBuiltin mode b vs
      | _ => .error .typeErr
    | .tup es => do
      let vs ← evalArgs mode fuel es
      .ok (.tuple vs)
    | .neg e => do
      let v ← evalExpr mode fuel e
      pyNeg v
    | .pos e => do
      let v ← evalExpr mode fuel e
      pyPos v
    | .bin op l r => do
      let a ← evalExpr mode fuel l
      let b ← evalExpr mode fuel r
      pyBin op a b

/-- Evaluate an argument list left to right. -/
def evalArgs (mode : String) : ℕ → List Expr → Except PyErr (List PyVal)
  | 0, _ => .error .typeErr
  | _ + 1, [] => .ok []
  | fuel + 1, e :: es => do
    let v ← evalExpr mode fuel e
    let vs ← evalArgs mode fuel es
    .ok (v :: vs)

end

/-- Preprocess, parse and evaluate one expression under the given angle
mode: the pure core of `CalculatorLogic.evaluate` (lines 179-236),
including the empty-input and invalid-characters early returns. -/
def evalCore (mode : String) (expression : String) : Except PyErr PyVal :=
  let expr := preprocess expression
  if expr = "" then .error .emptyInput
  else if expr = invalidCharsSentinel then .error .invalidChars
  else
    match lexString expr with
    | none => .error .parseErr
    | some ts =>
      match parseTop (10 * ts.length + 10) ts with
      | none => .error .parseErr
      | some e => evalExpr mode (2 * ts.length + 4) e

/-- The display string of each caught exception (lines 238-248); the empty
string is the early return for empty input. -/
def errString : PyErr → String
  | .emptyInput => ""
  | .invalidChars => "Error: Invalid Characters"
  | .zeroDiv => "Error: Division by Zero"
  | .valueErr m => m
  | .parseErr => "Error: Invalid Expression"
  | .typeErr => "Error: Invalid Expression"
  | .nameErr => "Error: Invalid Expression"
  | .attrErr => "Error: Invalid Expression"

/-- The mutable state of a `CalculatorLogic` instance. -/
structure Calc where
  angle_mode : String
  history : List (String × PyVal)

/-- The default-constructed instance (`__init__`, lines 18-20). -/
def initCalc : Calc := { angle_mode := "DEG", history := [] }

/-- Embedding of `CalculatorLogic.evaluate` (lines 179-248): on success the
raw expression and the un-formatted result are appended to the history and
the formatted result is returned; every caught exception becomes its
display string and leaves the state unchanged. -/
def evaluate (s : Calc) (expression : String) : Calc × String :=
  match evalCore s.angle_mode expression with
  | .ok v => ({ s with history := s.history ++ [(expression, v)] }, format_result v)
  | .error err => (s, errString err)

/-- Message of the `ValueError` raised by `set_angle_mode`. -/
def angleModeErrMsg : String := "Angle mode must be 'DEG' or 'RAD'"

/-- Embedding of `CalculatorLogic.set_angle_mode` (lines 26-30): uppercase,
strip, and accept exactly DEG and RAD; anything else raises (modelled as
`Except.error`, the state untouched). -/
def set_angle_mode (s : Calc) (mode : String) : Except String Calc :=
  let m := pyStrip (pyUpper mode)
  if m = "DEG" ∨ m = "RAD" then .ok { s with angle_mode := m }
  else .error angleModeErrMsg

/-- Embedding of `CalculatorLogic.clear_history` (lines 32-33). -/
def clear_history (s : Calc) : Calc := { s with history := [] }

/-- Embedding of `CalculatorLogic.get_history` (lines 35-36); returning
`list(self.history)` is a fresh copy, which in a pure model is the list
itself. -/
def get_history (s : Calc) : List (String × PyVal) := s.history

/-- A client-visible operation on one instance. -/
inductive CalcOp where
  | ev (e : String)
  | setMode (m : String)
  | clear

/-- One operation step; a failed `set_angle_mode` raises, so the caller
observes the unchanged state. -/
def runOp (s : Calc) : CalcOp → Calc
  | .ev e => (evaluate s e).1
  | .setMode m =>
    match set_angle_mode s m with
    | .ok t => t
    | .error _ => s
  | .clear => clear_history s

/-- Run a sequence of operations. -/
def runOps (s : Calc) (ops : List CalcOp) : Calc := ops.foldl runOp s

/-- Run a sequence of `evaluate` calls. -/
def runEvals (s : Calc) (es : List String) : Calc :=
  es.foldl (fun t e => (evaluate t e).1) s

/-- The history entry a call contributes: `some` exactly on success. -/
def successPair (mode : String) (e : String) : Option (String × PyVal) :=
  match evalCore mode e with
  | .ok v => some (e, v)
  | .error _ => none

/-- Value of a decimal digit-character list (most significant first). -/
def decDigitsVal (l : List Char) : ℕ :=
  l.foldl (fun a c => 10 * a + (c.toNat - 48)) 0

/-- Integer denoted by a decimal string with optional leading minus: the
inverse reading used to state that integer rendering is exact. -/
def decStrVal (s : String) : ℤ :=
  match s.data with
  | '-' :: l => -(decDigitsVal l : ℤ)
  | l => (decDigitsVal l : ℤ)

/-- The significand portion of a formatted number: everything before the
exponent marker. -/
def sigPart (s : String) : List Char := s.data.takeWhile (fun c => !(c == 'e'))

/-- Number of significant digits of a formatted number: its digit
characters, skipping leading zeros. -/
def sigDigitCount (s : String) : ℕ :=
  (((sigPart s).filter (fun c => c.isDigit)).dropWhile (fun c => c == '0')).length

/-! ### Sanity checks of the embedding on the source's own test inputs -/

example : (evaluate initCalc "2+3*5").2 = "17" := rfl
example : (evaluate initCalc "sqrt(64)").2 = "8" := rfl
example : (evaluate initCalc "1/0").2 = "Error: Division by Zero" := rfl
example : (evaluate initCalc "fact(5)").2 = "120" := rfl
example : (evaluate initCalc "nPr(5,2)").2 = "20" := rfl
example : (evaluate initCalc "nCr(5,2)").2 = "10" := rfl
example : (evaluate initCalc "tan(90)").2 = "Domain Error" := rfl
example : (evaluate initCalc "").2 = "" := rfl

/-! ### Helper lemmas -/

/-- One `evaluate` call only appends the success pair to the history and
never touches the angle mode. -/
lemma evaluate_state (s : Calc) (e : String) :
    (evaluate s e).1.angle_mode = s.angle_mode ∧
      (evaluate s e).1.history = s.history ++ (successPair s.angle_mode e).toList := by
  unfold evaluate successPair
  cases evalCore s.angle_mode e <;> simp

/-- Length of a `filterMap` as a success count. -/
lemma length_filterMap_eq_countP {α β : Type} (f : α → Option β) (l : List α) :
    (l.filterMap f).length = l.countP (fun a => (f a).isSome) := by
  induction l with
  | nil => simp
  | cons a l ih =>
    cases h : f a <;> simp [List.filterMap_cons, h, List.countP_cons, ih]

/-- C10: For every input expression, a call to `evaluate` leaves the
evaluator's angle mode unchanged, whether the evaluation succeeds or fails;
the angle mode is modified only by `set_angle_mode` (in particular,
`clear_history` leaves it unchanged as well). -/
theorem evaluate_preserves_angle_mode :
    ∀ (s : Calc) (e : String),
      ((evaluate s e).1).angle_mode = s.angle_mode ∧
        (clear_history s).angle_mode = s.angle_mode :=
  fun s e => ⟨(evaluate_state s e).1, rfl⟩

/-- C3: For every sequence of `evaluate` calls on one instance (with no
intervening `clear_history`), the history is the initial history followed by
exactly the (raw expression, result) pairs of the successful calls, in call
order; failed evaluations contribute nothing, the count of entries is the
count of successes, and an explicit `clear_history` resets the sequence to
empty. -/
theorem history_append_only_success :
    ∀ (s : Calc) (es : List String),
      get_history (runEvals s es) =
          s.history ++ es.filterMap (successPair s.angle_mode) ∧
        (runEvals s es).angle_mode = s.angle_mode ∧
        (get_history (runEvals s es)).length =
          s.history.length +
            es.countP (fun e => (successPair s.angle_mode e).isSome) ∧
        get_history (clear_history (runEvals s es)) = [] := by
  intro s es
  induction es generalizing s with
  | nil => simp [runEvals, get_history, clear_history]
  | cons e es ih =>
    have h := evaluate_state s e
    have hrun : runEvals s (e :: es) = runEvals ((evaluate s e).1) es := rfl
    obtain ⟨ih1, ih2, ih3, ih4⟩ := ih ((evaluate s e).1)
    rw [hrun]
    refine ⟨?_, by rw [ih2, h.1], ?_, ih4⟩
    · rw [ih1, h.1, h.2, List.append_assoc]
      cases hp : successPair s.angle_mode e <;>
        simp [hp, List.filterMap_cons]
    · rw [ih3, h.1, h.2]
      cases hp : successPair s.angle_mode e <;>
        simp [hp, List.countP_cons, Nat.add_comm, Nat.add_assoc]

/-- C1 (exhibit of the security hole): the expression `e.__class__` passes
the character filter, is valid syntax outside the §4.3 grammar with the
attribute name `__class__` outside the whitelist, and yet `evaluate` does
not return an error: CPython's restricted `eval` resolves the attribute and
returns the host `float` class object, whose display string the method
returns and whose value it appends to the history. -/
theorem evaluate_attr_escape :
    (evaluate initCalc "e.__class__").2 = "<class 'float'>" ∧
      (evaluate initCalc "e.__class__").2 ≠ "Error: Invalid Expression" ∧
      (evaluate initCalc "e.__class__").2 ≠ "Error: Invalid Characters" ∧
      (evaluate initCalc "e.__class__").1.history =
        [("e.__class__", PyVal.obj "<class 'float'>")] :=
  ⟨rfl, by decide, by decide, rfl⟩

/-- C4 (exhibit): the expression `(1,2)` evaluates to a Python tuple, which
`evaluate` renders through `str` and returns as if it were a result, and
which it records in the history; the recorded value is neither an int nor a
float. -/
theorem evaluate_tuple_nonnumeric :
    (evaluate initCalc "(1,2)").2 = "(1, 2)" ∧
      (evaluate initCalc "(1,2)").1.history =
        [("(1,2)", PyVal.tuple [PyVal.int 1, PyVal.int 2])] ∧
      (∀ n : ℤ, PyVal.tuple [PyVal.int 1, PyVal.int 2] ≠ PyVal.int n) ∧
      (∀ q : ℚ, PyVal.tuple [PyVal.int 1, PyVal.int 2] ≠ PyVal.float q) :=
  ⟨rfl, rfl, fun _ => nofun, fun _ => nofun⟩

/-- C8 counterexample: `evaluate("fact(2.5)")` returns the function-specific
message `"Factorial needs integer"`, while a parse failure such as
`evaluate("2+")` returns `"Error: Invalid Expression"` — so a non-integral
argument does not produce the same user-facing message kind as parse
failures, contrary to the claim. -/
theorem fact_nonintegral_message_counterexample :
    (evaluate initCalc "fact(2.5)").2 = "Factorial needs integer" ∧
      (evaluate initCalc "2+").2 = "Error: Invalid Expression" ∧
      ("Factorial needs integer" : String) ≠ "Error: Invalid Expression" :=
  ⟨rfl, rfl, by decide⟩

/-- C8 amended: a non-integral numeric argument — in any argument position —
to `fact`, `nPr` or `nCr` makes `evaluate` return that function's own
integer-requirement `ValueError` message (`"Factorial needs integer"`,
`"nPr needs integers"`, `"nCr needs integers"`), and each of the three
messages is distinct both from the Domain-Error message and from the
generic parse-failure message `"Error: Invalid Expression"`. -/
theorem combinatorics_nonintegral_message (q r : ℚ) (hq : q.den ≠ 1 ∨ r.den ≠ 1) :
    (q.den ≠ 1 → srcFact (.float q) = .error (.valueErr "Factorial needs integer")) ∧
      srcNpr (.float q) (.float r) = .error (.valueErr "nPr needs integers") ∧
      srcNcr (.float q) (.float r) = .error (.valueErr "nCr needs integers") ∧
      (∀ m ∈ ["Factorial needs integer", "nPr needs integers", "nCr needs integers"],
        errString (.valueErr m) ≠ errString (.valueErr "Domain Error") ∧
          errString (.valueErr m) ≠ errString .parseErr) := by
  refine ⟨fun hq1 => ?_, ?_, ?_, by decide⟩
  · simp [srcFact, toFloatEx, Bind.bind, Except.bind, hq1]
  · simp [srcNpr, toFloatEx, Bind.bind, Except.bind, hq]
  · simp [srcNcr, toFloatEx, Bind.bind, Except.bind, hq]

/-- Witness for `combinatorics_nonintegral_message`: `fact(2.5)`, and
`nPr(3, 2.5)` / `nCr(3, 2.5)` with the non-integral value in the second
argument only. -/
theorem combinatorics_nonintegral_message_witness :
    srcFact (.float ((5 : ℚ)/2)) = .error (.valueErr "Factorial needs integer") ∧
      srcNpr (.float 3) (.float ((5 : ℚ)/2)) = .error (.valueErr "nPr needs integers") ∧
      srcNcr (.float 3) (.float ((5 : ℚ)/2)) = .error (.valueErr "nCr needs integers") :=
  ⟨(combinatorics_nonintegral_message ((5 : ℚ)/2) 0 (Or.inl (by decide))).1 (by decide),
   (combinatorics_nonintegral_message 3 ((5 : ℚ)/2) (Or.inr (by decide))).2.1,
   (combinatorics_nonintegral_message 3 ((5 : ℚ)/2) (Or.inr (by decide))).2.2.1⟩

/-- A character absent from the replacement text never survives its own
replacement. -/
lemma not_mem_replChar_self {c : Char} {r : List Char} (hr : c ∉ r) :
    ∀ l : List Char, c ∉ replChar c r l := by
  intro l h
  unfold replChar at h
  rw [List.mem_flatten] at h
  obtain ⟨L, hL, hcL⟩ := h
  rw [List.mem_map] at hL
  obtain ⟨d, _, rfl⟩ := hL
  by_cases hdc : d = c
  · rw [if_pos hdc] at hcL
    exact hr hcL
  · rw [if_neg hdc] at hcL
    exact hdc (List.mem_singleton.mp hcL ▸ rfl)

/-- C9: the sanitizer replaces every caret with the power operator (no `^`
survives preprocessing), and the resulting exponentiation is
right-associative and binds tighter than unary minus:
`2^8 = 256`, `2^3^2 = 2^(3^2) = 512`, and `-2^2 = -(2^2) = -4`. -/
theorem caret_power_right_assoc :
    (∀ raw : String, '^' ∉ (preprocess raw).data) ∧
      (evaluate initCalc "2^8").2 = "256" ∧
      (evaluate initCalc "2^3^2").2 = "512" ∧
      parseString "2**3**2" =
        some (.bin .pow (.intLit 2) (.bin .pow (.intLit 3) (.intLit 2))) ∧
      (evaluate initCalc "-2^2").2 = "-4" := by
  refine ⟨?_, rfl, rfl, rfl, rfl⟩
  intro raw
  unfold preprocess
  dsimp only
  split
  · exact not_mem_replChar_self (by decide) _
  · decide

/-- An exact `k`-th root returned by `exactNthRoot` really is the
nonnegative `k`-th root. -/
lemma exactNthRoot_spec (y : ℚ) (k : ℕ) (r : ℚ) (hy : 0 ≤ y) (hk : 1 ≤ k)
    (h : exactNthRoot y k = some r) : 0 ≤ r ∧ r ^ k = y := by
  simp only [exactNthRoot] at h
  set a := y.num.toNat with ha
  set ra := Nat.findGreatest (fun r => r ^ k ≤ a) a with hra
  set rb := Nat.findGreatest (fun r => r ^ k ≤ y.den) y.den with hrb
  split at h
  case isFalse => exact absurd h (by simp)
  case isTrue hcond =>
    obtain ⟨hca, hcb⟩ := hcond
    have hr : r = (ra : ℚ) / (rb : ℚ) := by
      simpa using h.symm
    have hbne : rb ≠ 0 := by
      intro h0
      rw [h0] at hcb
      have : (0 : ℕ) ^ k = 0 := Nat.zero_pow hk
      rw [this] at hcb
      exact absurd hcb.symm y.den_nz
    constructor
    · rw [hr]
      positivity
    · rw [hr, div_pow]
      have h1 : ((ra : ℚ)) ^ k = (a : ℚ) := by
        rw [← Nat.cast_pow, hca]
      have h2 : ((rb : ℚ)) ^ k = (y.den : ℚ) := by
        rw [← Nat.cast_pow, hcb]
      rw [h1, h2, ha]
      have hnum : ((y.num.toNat : ℤ) : ℚ) = (y.num : ℚ) := by
        rw [Int.toNat_of_nonneg (Rat.num_nonneg.mpr hy)]
      push_cast at hnum ⊢
      rw [hnum, Rat.num_div_den]

/-- C7 counterexample: `root(4, 0.5)` has `x = 4 ≥ 0` and `n = 0.5 > 0`, so
the claim promises the real `n`-th root, but the code first truncates
`n` with `int(0.5) = 0` and returns the Invalid-Root error. -/
theorem root_fractional_index_counterexample :
    (0 : ℚ) < 1/2 ∧ (0 : ℚ) ≤ 4 ∧
      srcRoot (.float 4) (.float (1/2)) = .error (.valueErr "Invalid Root") ∧
      (evaluate initCalc "root(4,0.5)").2 = "Invalid Root" :=
  ⟨by decide, by decide, rfl, rfl⟩

/-- C7 amended: `root(x, n)` first truncates `n` toward zero to an integer
`ni = int(n)`; it raises Invalid-Root iff `ni ≤ 0`; for `x < 0` it raises
Complex-Result iff `ni` is even and otherwise returns the negated `ni`-th
root of `|x|`; for `x ≥ 0` and `ni > 0` it returns the `ni`-th root of `x`
(roots under the exact-real idealization of float power, exact whenever the
real root is rational); `root(27,3)` formats to `"3"`, `root(-8,3)` to
`"-2"`, and `root(-8,2)` is the Complex-Result error. -/
theorem root_spec_amended (x nq : ℚ) :
    (pyTrunc nq ≤ 0 →
        srcRoot (.float x) (.float nq) = .error (.valueErr "Invalid Root")) ∧
      (0 < pyTrunc nq → x < 0 → pyTrunc nq % 2 = 0 →
        srcRoot (.float x) (.float nq) = .error (.valueErr "Complex Result")) ∧
      (0 < pyTrunc nq → x < 0 → pyTrunc nq % 2 ≠ 0 →
        srcRoot (.float x) (.float nq) =
          .ok (negVal (rootVal (-x) (pyTrunc nq).toNat))) ∧
      (0 < pyTrunc nq → 0 ≤ x →
        srcRoot (.float x) (.float nq) = .ok (rootVal x (pyTrunc nq).toNat)) ∧
      (∀ (y : ℚ) (k : ℕ) (r : ℚ), 0 ≤ y → 1 ≤ k → exactNthRoot y k = some r →
        0 ≤ r ∧ r ^ k = y) ∧
      (evaluate initCalc "root(27,3)").2 = "3" ∧
      (evaluate initCalc "root(-8,3)").2 = "-2" ∧
      (evaluate initCalc "root(-8,2)").2 = "Complex Result" := by
  refine ⟨?_, ?_, ?_, ?_, exactNthRoot_spec, rfl, rfl, rfl⟩
  · intro h
    simp [srcRoot, toFloatEx, pyIntEx, Bind.bind, Except.bind, h]
  · intro h1 h2 h3
    simp [srcRoot, toFloatEx, pyIntEx, Bind.bind, Except.bind, not_le.mpr h1,
      not_le.mpr h2, h2, Int.dvd_iff_emod_eq_zero, h3]
  · intro h1 h2 h3
    simp [srcRoot, toFloatEx, pyIntEx, Bind.bind, Except.bind, not_le.mpr h1,
      not_le.mpr h2, h2, Int.dvd_iff_emod_eq_zero, h3]
  · intro h1 h2
    simp [srcRoot, toFloatEx, pyIntEx, Bind.bind, Except.bind, not_le.mpr h1,
      not_lt.mpr h2]

/-- Witness for `root_spec_amended` at the concrete calls of the spec's
test list. -/
theorem root_spec_amended_witness :
    srcRoot (.float 27) (.float 3) = .ok (rootVal 27 (pyTrunc 3).toNat) ∧
      srcRoot (.float (-8)) (.float 2) = .error (.valueErr "Complex Result") ∧
      srcRoot (.float (-8)) (.float 3) =
        .ok (negVal (rootVal (-(-8 : ℚ)) (pyTrunc 3).toNat)) ∧
      (2 : ℚ) ^ (3 : ℕ) = 8 :=
  ⟨(root_spec_amended 27 3).2.2.2.1 (by decide) (by decide),
   (root_spec_amended (-8) 2).2.1 (by decide) (by decide) (by decide),
   (root_spec_amended (-8) 3).2.2.1 (by decide) (by decide) (by decide),
   ((root_spec_amended 0 0).2.2.2.2.1 8 3 2 (by decide) (by decide) (by decide)).2⟩

/-- Any single operation leaves the angle mode unchanged or sets it to one
of the two enumerated values. -/
lemma runOp_mode (s : Calc) (op : CalcOp) :
    (runOp s op).angle_mode = s.angle_mode ∨
      (runOp s op).angle_mode = "DEG" ∨ (runOp s op).angle_mode = "RAD" := by
  cases op with
  | ev e => exact .inl (evaluate_state s e).1
  | clear => exact .inl rfl
  | setMode m =>
    unfold runOp set_angle_mode
    dsimp only
    by_cases h : pyStrip (pyUpper m) = "DEG" ∨ pyStrip (pyUpper m) = "RAD"
    · rw [if_pos h]
      exact .inr h
    · rw [if_neg h]
      exact .inl rfl

/-- The two-value mode invariant is preserved by any operation sequence. -/
lemma runOps_mode (ops : List CalcOp) :
    ∀ s : Calc, s.angle_mode = "DEG" ∨ s.angle_mode = "RAD" →
      (runOps s ops).angle_mode = "DEG" ∨ (runOps s ops).angle_mode = "RAD" := by
  induction ops with
  | nil => exact fun s hs => hs
  | cons op ops ih =>
    intro s hs
    have hstep : runOps s (op :: ops) = runOps (runOp s op) ops := rfl
    rw [hstep]
    refine ih (runOp s op) ?_
    rcases runOp_mode s op with h | h
    · rw [h]; exact hs
    · exact h

/-- C5: `set_angle_mode` accepts exactly the inputs whose
uppercased-then-stripped form is DEG or RAD (Python's
`mode.upper().strip()`, i.e. case-insensitive and whitespace-trimmed); on
acceptance it stores that normalized mode and touches nothing else; any
other argument fails with the input error and leaves the state unchanged;
consequently, after any operation sequence on a default-constructed
instance, the angle mode is one of the two enumerated values. -/
theorem set_angle_mode_spec :
    (∀ (s : Calc) (m : String),
        (∃ t, set_angle_mode s m = .ok t) ↔
          (pyStrip (pyUpper m) = "DEG" ∨ pyStrip (pyUpper m) = "RAD")) ∧
      (∀ (s : Calc) (m : String) (t : Calc), set_angle_mode s m = .ok t →
          t.angle_mode = pyStrip (pyUpper m) ∧ t.history = s.history) ∧
      (∀ (s : Calc) (m : String),
          ¬(pyStrip (pyUpper m) = "DEG" ∨ pyStrip (pyUpper m) = "RAD") →
            set_angle_mode s m = .error angleModeErrMsg ∧
              runOp s (.setMode m) = s) ∧
      (∀ ops : List CalcOp,
          (runOps initCalc ops).angle_mode = "DEG" ∨
            (runOps initCalc ops).angle_mode = "RAD") := by
  refine ⟨?_, ?_, ?_, fun ops => runOps_mode ops initCalc (.inl rfl)⟩
  · intro s m
    unfold set_angle_mode
    dsimp only
    by_cases h : pyStrip (pyUpper m) = "DEG" ∨ pyStrip (pyUpper m) = "RAD"
    · rw [if_pos h]
      exact ⟨fun _ => h, fun _ => ⟨_, rfl⟩⟩
    · rw [if_neg h]
      exact ⟨fun ⟨t, ht⟩ => absurd ht (by simp), fun hc => absurd hc h⟩
  · intro s m t ht
    unfold set_angle_mode at ht
    dsimp only at ht
    by_cases h : pyStrip (pyUpper m) = "DEG" ∨ pyStrip (pyUpper m) = "RAD"
    · rw [if_pos h] at ht
      cases ht
      exact ⟨rfl, rfl⟩
    · rw [if_neg h] at ht
      exact absurd ht (by simp)
  · intro s m h
    unfold runOp set_angle_mode
    dsimp only
    rw [if_neg h]
    exact ⟨rfl, rfl⟩

/-- Witness for `set_angle_mode_spec`: the concrete accepted input
`" rad "` and the concrete rejected input `"DEGREES"`. -/
theorem set_angle_mode_spec_witness :
    ({ angle_mode := "RAD", history := [] } : Calc).angle_mode =
        pyStrip (pyUpper " rad ") ∧
      set_angle_mode initCalc "DEGREES" = .error angleModeErrMsg ∧
      runOp initCalc (.setMode "DEGREES") = initCalc :=
  ⟨(set_angle_mode_spec.2.1 initCalc " rad " { angle_mode := "RAD", history := [] } rfl).1,
   (set_angle_mode_spec.2.2.1 initCalc "DEGREES" (by decide)).1,
   (set_angle_mode_spec.2.2.1 initCalc "DEGREES" (by decide)).2⟩

/-- The floor-style remainder is nonnegative for a positive divisor. -/
lemma qfmod_nonneg (a b : ℚ) (hb : 0 < b) : 0 ≤ qfmod a b := by
  unfold qfmod
  have h := Int.floor_le (a / b)
  have : b * (⌊a / b⌋ : ℚ) ≤ b * (a / b) := by
    exact mul_le_mul_of_nonneg_left h (le_of_lt hb)
  rw [mul_div_cancel₀ a (ne_of_gt hb)] at this
  linarith

/-- The floor-style remainder is below a positive divisor. -/
lemma qfmod_lt (a b : ℚ) (hb : 0 < b) : qfmod a b < b := by
  unfold qfmod
  have h := Int.lt_floor_add_one (a / b)
  have : b * (a / b) < b * ((⌊a / b⌋ : ℚ) + 1) := by
    exact mul_lt_mul_of_pos_left h hb
  rw [mul_div_cancel₀ a (ne_of_gt hb)] at this
  linarith

/-- The double `math.pi` is positive. -/
lemma pyPi_pos : 0 < pyPi := by norm_num [pyPi]

/-- The degree-mode branch of the singularity test is exactly "within
`10⁻¹²` of an odd multiple of 90", two-sided, on the pre-conversion
angle. -/
lemma tanCheck_deg_iff (x : ℚ) :
    tanCheck "DEG" x = true ↔ ∃ k : ℤ, |x - (90 + 180 * (k : ℚ))| < 1/10^12 := by
  unfold tanCheck
  rw [if_pos rfl, decide_eq_true_eq]
  unfold qfmod
  constructor
  · intro h
    refine ⟨⌊x / 180⌋, ?_⟩
    have he : x - (90 + 180 * ((⌊x / 180⌋ : ℤ) : ℚ)) = x - 180 * ⌊x / 180⌋ - 90 := by
      ring
    rw [he]
    exact h
  · rintro ⟨k, hk⟩
    rw [abs_lt] at hk
    obtain ⟨hk1, hk2⟩ := hk
    have hfloor : ⌊x / 180⌋ = k := by
      rw [Int.floor_eq_iff]
      constructor
      · rw [le_div_iff₀ (by norm_num : (0:ℚ) < 180)]
        linarith
      · rw [div_lt_iff₀ (by norm_num : (0:ℚ) < 180)]
        linarith
    rw [hfloor, abs_lt]
    constructor <;> linarith

/-- The radian-mode branch of the singularity test is one-sided: it fires
exactly when the nonnegative residue `(x - π/2) mod π` is below `10⁻¹²`,
i.e. just at or above a singularity, never just below one. -/
lemma tanCheck_rad_iff (x : ℚ) :
    tanCheck "RAD" x = true ↔ qfmod (x - pyPi/2) pyPi < 1/10^12 := by
  unfold tanCheck
  rw [if_neg (by decide), decide_eq_true_eq,
    abs_of_nonneg (qfmod_nonneg _ _ pyPi_pos)]

/-- C2 counterexample: in radian mode, `x = π/2 - 10⁻¹³` is within
`10⁻¹²` of `π/2` (the singularity approached from below), yet `_tan`
raises no Domain Error and calls `math.tan` on the converted argument. -/
theorem tan_rad_below_singularity_counterexample :
    |(pyPi/2 - 1/10^13) - pyPi/2| < 1/10^12 ∧
      tanCheck "RAD" (pyPi/2 - 1/10^13) = false ∧
      srcTan "RAD" (.float (pyPi/2 - 1/10^13)) =
        .ok (mkIrr "tan" [toRadians "RAD" (pyPi/2 - 1/10^13)]) :=
  ⟨by decide, rfl, rfl⟩

/-- C2 amended: `tan(x)` raises Domain Error exactly when (degree mode) the
pre-conversion angle is within `10⁻¹²` of an odd multiple of 90 — from
either side — or (radian mode) the nonnegative residue `(x - π/2) mod π`
is below `10⁻¹²`, which is a one-sided test that misses arguments
approaching the singularity from below; otherwise it returns the tangent of
the angle-mode-converted argument.  Here π is the double `math.pi` and the
tolerance the exact rational `10⁻¹²`. -/
theorem tan_domain_check_spec :
    (∀ x : ℚ, tanCheck "DEG" x = true ↔
        ∃ k : ℤ, |x - (90 + 180 * (k : ℚ))| < 1/10^12) ∧
      (∀ x : ℚ, tanCheck "RAD" x = true ↔
        qfmod (x - pyPi/2) pyPi < 1/10^12) ∧
      (∀ (mode : String) (x : ℚ), tanCheck mode x = true →
        srcTan mode (.float x) = .error (.valueErr "Domain Error")) ∧
      (∀ (mode : String) (x : ℚ), tanCheck mode x = false →
        srcTan mode (.float x) = .ok (mkIrr "tan" [toRadians mode x])) := by
  refine ⟨tanCheck_deg_iff, tanCheck_rad_iff, ?_, ?_⟩ <;>
    · intro mode x h
      simp [srcTan, toFloatEx, Bind.bind, Except.bind, h]

/-- Witness for `tan_domain_check_spec`: the exact singularity
`tan(90)` in degree mode, and the regular argument `tan(1)` in radian
mode. -/
theorem tan_domain_check_spec_witness :
    tanCheck "DEG" 90 = true ∧
      srcTan "DEG" (.float 90) = .error (.valueErr "Domain Error") ∧
      srcTan "RAD" (.float 1) = .ok (mkIrr "tan" [toRadians "RAD" 1]) :=
  ⟨(tan_domain_check_spec.1 90).mpr ⟨0, by decide⟩,
   tan_domain_check_spec.2.2.1 "DEG" 90 rfl,
   tan_domain_check_spec.2.2.2 "RAD" 1 rfl⟩

/-- The fuelled digit extractor agrees with `Nat.digits 10`. -/
lemma natDigitsAux_eq (fuel : ℕ) : ∀ n : ℕ, n < fuel →
    natDigitsAux fuel n = Nat.digits 10 n := by
  induction fuel with
  | zero => omega
  | succ fuel ih =>
    intro n hn
    unfold natDigitsAux
    by_cases h0 : n = 0
    · simp [h0]
    · have hpos : 0 < n := Nat.pos_of_ne_zero h0
      have hdiv : n / 10 < n := Nat.div_lt_self hpos (by norm_num)
      rw [if_neg h0, Nat.digits_def' (by norm_num : 1 < 10) hpos,
        ih (n / 10) (by omega)]

/-- `natDigits10` is `Nat.digits 10`. -/
lemma natDigits10_eq (n : ℕ) : natDigits10 n = Nat.digits 10 n :=
  natDigitsAux_eq (n + 1) n (Nat.lt_succ_self n)

/-- `natLog10` is `Nat.log 10` on positive arguments. -/
lemma natLog10_eq (n : ℕ) (hn : n ≠ 0) : natLog10 n = Nat.log 10 n := by
  rw [natLog10, natDigits10_eq, Nat.digits_len 10 n (by norm_num) hn]
  omega

/-- Basic facts about a decimal digit character. -/
lemma digitChar10_facts (d : ℕ) (hd : d < 10) :
    (digitChar10 d).toNat = 48 + d ∧ (digitChar10 d).isDigit = true ∧
      digitChar10 d ≠ 'e' ∧ digitChar10 d ≠ '.' ∧ digitChar10 d ≠ '-' ∧
      (digitChar10 d = '0' ↔ d = 0) := by
  interval_cases d <;> exact ⟨rfl, rfl, by decide, by decide, by decide, by decide⟩

/-- Every character of `digitsBE m` is the character of a decimal digit. -/
lemma digitsBE_mem (m : ℕ) (c : Char) (hc : c ∈ digitsBE m) :
    ∃ d, d < 10 ∧ c = digitChar10 d := by
  unfold digitsBE at hc
  rw [natDigits10_eq, List.mem_map] at hc
  obtain ⟨d, hd, rfl⟩ := hc
  rw [List.mem_reverse] at hd
  exact ⟨d, Nat.digits_lt_base (by norm_num) hd, rfl⟩

/-- For `10^11 ≤ m < 10^12` the digit string has exactly 12 characters. -/
lemma digitsBE_length (m : ℕ) (h1 : 10 ^ 11 ≤ m) (h2 : m < 10 ^ 12) :
    (digitsBE m).length = 12 := by
  unfold digitsBE
  rw [natDigits10_eq, List.length_map, List.length_reverse,
    Nat.digits_len 10 m (by norm_num) (by positivity),
    Nat.log_eq_of_pow_le_of_lt_pow h1 h2]

/-- The leading character of the digit string of a positive number is not
`'0'`. -/
lemma digitsBE_head_ne_zero (m : ℕ) (hm : m ≠ 0) :
    ∀ c, (digitsBE m).head? = some c → c ≠ '0' := by
  intro c hc
  unfold digitsBE at hc
  rw [natDigits10_eq, List.head?_map, List.head?_reverse] at hc
  have hne : Nat.digits 10 m ≠ [] := Nat.digits_ne_nil_iff_ne_zero.mpr hm
  rw [List.getLast?_eq_getLast _ hne] at hc
  have hd10 : (Nat.digits 10 m).getLast hne < 10 :=
    Nat.digits_lt_base (by norm_num) (List.getLast_mem hne)
  have hdne : (Nat.digits 10 m).getLast hne ≠ 0 :=
    Nat.getLast_digit_ne_zero 10 hm
  have := (digitChar10_facts _ hd10).2.2.2.2.2
  simp only [Option.map_some', Option.some.injEq] at hc
  rw [← hc] at *
  intro h0
  exact hdne (this.mp h0)

/-- Folding decimal characters over the rendered digits recovers the
number. -/
lemma foldl_digit_chars (L : List ℕ) (hL : ∀ d ∈ L, d < 10) : ∀ a : ℕ,
    ((L.reverse.map digitChar10).foldl (fun a c => 10 * a + (c.toNat - 48)) a) =
      a * 10 ^ L.length + Nat.ofDigits 10 L := by
  induction L with
  | nil => intro a; simp [Nat.ofDigits_nil]
  | cons d L ih =>
    intro a
    have hd : d < 10 := hL d (List.mem_cons_self d L)
    have hL' : ∀ x ∈ L, x < 10 := fun x hx => hL x (List.mem_cons_of_mem d hx)
    rw [List.reverse_cons, List.map_append, List.foldl_append, ih hL']
    simp only [List.map_cons, List.map_nil, List.foldl_cons, List.foldl_nil,
      Nat.ofDigits_cons, List.length_cons]
    rw [(digitChar10_facts d hd).1]
    ring_nf
    omega

/-- Reading back the decimal rendering of a natural number is exact. -/
lemma decDigitsVal_natDecRepr (n : ℕ) : decDigitsVal (natDecRepr n).data = n := by
  unfold natDecRepr decDigitsVal
  by_cases hn : n = 0
  · subst hn
    decide
  · rw [if_neg hn]
    show ((natDigits10 n).reverse.map digitChar10).foldl _ 0 = n
    rw [natDigits10_eq,
      foldl_digit_chars _ (fun d hd => Nat.digits_lt_base (by norm_num) hd) 0,
      Nat.ofDigits_digits]
    omega

/-- Every character of `natDecRepr` is a decimal digit character. -/
lemma natDecRepr_chars (n : ℕ) :
    ∀ c ∈ (natDecRepr n).data, ∃ d, d < 10 ∧ c = digitChar10 d := by
  intro c hc
  unfold natDecRepr at hc
  by_cases hn : n = 0
  · rw [if_pos hn] at hc
    simp only [show ("0" : String).data = ['0'] from rfl, List.mem_singleton] at hc
    exact ⟨0, by norm_num, by rw [hc]; rfl⟩
  · rw [if_neg hn] at hc
    rw [show (String.mk ((natDigits10 n).reverse.map digitChar10)).data =
      (natDigits10 n).reverse.map digitChar10 from rfl, List.mem_map] at hc
    obtain ⟨d, hd, rfl⟩ := hc
    rw [List.mem_reverse, natDigits10_eq] at hd
    exact ⟨d, Nat.digits_lt_base (by norm_num) hd, rfl⟩

/-- Reading back the decimal rendering of an integer is exact: the
formatter's integer strings denote exactly the integer, at any
magnitude. -/
lemma decStrVal_intDecRepr (n : ℤ) : decStrVal (intDecRepr n) = n := by
  unfold intDecRepr decStrVal
  by_cases hn : n < 0
  · rw [if_pos hn]
    rw [show ("-" ++ natDecRepr (-n).toNat).data =
      '-' :: (natDecRepr (-n).toNat).data from rfl]
    simp only []
    rw [decDigitsVal_natDecRepr, Int.toNat_of_nonneg (by omega)]
    omega
  · rw [if_neg hn]
    have hhead : ∀ l, (natDecRepr n.toNat).data ≠ '-' :: l := by
      intro l heq
      obtain ⟨d, hd, hcd⟩ := natDecRepr_chars n.toNat '-'
        (by rw [heq]; exact List.mem_cons_self _ _)
      exact (digitChar10_facts d hd).2.2.2.2.1 hcd.symm
    split
    next l heq => exact absurd heq (hhead l)
    next heq =>
      rw [decDigitsVal_natDecRepr, Int.toNat_of_nonneg (by omega)]

/-- The head of a `dropWhile` result fails the predicate. -/
lemma head?_dropWhile_not (p : Char → Bool) :
    ∀ (l : List Char) (c : Char), (l.dropWhile p).head? = some c → p c = false := by
  intro l
  induction l with
  | nil => intro c hc; cases hc
  | cons a l ih =>
    intro c hc
    by_cases hp : p a
    · rw [List.dropWhile_cons_of_pos hp] at hc
      exact ih c hc
    · rw [List.dropWhile_cons_of_neg hp] at hc
      simp only [List.head?_cons, Option.some.injEq] at hc
      rw [← hc]
      exact Bool.not_eq_true _ ▸ (by simpa using hp)

/-- Dropping over a prefix that satisfies the predicate throughout. -/
lemma dropWhile_append_all (p : Char → Bool) (l1 l2 : List Char)
    (h : ∀ c ∈ l1, p c = true) : (l1 ++ l2).dropWhile p = l2.dropWhile p := by
  induction l1 with
  | nil => rfl
  | cons a l1 ih =>
    rw [List.cons_append, List.dropWhile_cons_of_pos (h a (List.mem_cons_self a l1))]
    exact ih fun c hc => h c (List.mem_cons_of_mem a hc)

/-- Taking over a prefix that satisfies the predicate throughout. -/
lemma takeWhile_append_all (p : Char → Bool) (l1 l2 : List Char)
    (h : ∀ c ∈ l1, p c = true) : (l1 ++ l2).takeWhile p = l1 ++ l2.takeWhile p := by
  induction l1 with
  | nil => rfl
  | cons a l1 ih =>
    rw [List.cons_append, List.takeWhile_cons_of_pos (h a (List.mem_cons_self a l1)),
      ih fun c hc => h c (List.mem_cons_of_mem a hc), List.cons_append]

/-- A list every character of which satisfies the predicate is its own
`takeWhile`. -/
lemma takeWhile_eq_self_of_all (p : Char → Bool) (l : List Char)
    (h : ∀ c ∈ l, p c = true) : l.takeWhile p = l := by
  have := takeWhile_append_all p l [] h
  simpa using this

/-- `stripZeros` removes a suffix of `'0'` characters. -/
lemma stripZeros_prefix (l : List Char) :
    ∃ t, l = stripZeros l ++ t ∧ ∀ c ∈ t, c = '0' := by
  refine ⟨(l.reverse.takeWhile (· == '0')).reverse, ?_, ?_⟩
  · unfold stripZeros
    conv_lhs => rw [← l.reverse_reverse,
      ← List.takeWhile_append_dropWhile (p := (· == '0')) (l := l.reverse)]
    rw [List.reverse_append]
  · intro c hc
    rw [List.mem_reverse] at hc
    simpa using List.mem_takeWhile_imp hc

/-- The last character surviving `stripZeros` is not `'0'`. -/
lemma stripZeros_getLast_ne (l : List Char) :
    ∀ c, (stripZeros l).getLast? = some c → c ≠ '0' := by
  intro c hc
  unfold stripZeros at hc
  rw [List.getLast?_reverse] at hc
  have := head?_dropWhile_not (· == '0') l.reverse c hc
  simpa using this

/-- `stripZeros` yields the empty list only on all-zero input. -/
lemma stripZeros_eq_nil_iff (l : List Char) :
    stripZeros l = [] ↔ ∀ c ∈ l, c = '0' := by
  unfold stripZeros
  rw [List.reverse_eq_nil_iff, List.dropWhile_eq_nil_iff]
  constructor
  · intro h c hc
    simpa using h c (List.mem_reverse.mpr hc)
  · intro h c hc
    simpa using h c (List.mem_reverse.mp hc)

/-- `dropWhile` never lengthens a list. -/
lemma length_dropWhile_le (p : Char → Bool) (l : List Char) :
    (l.dropWhile p).length ≤ l.length := by
  induction l with
  | nil => exact le_refl 0
  | cons a l ih =>
    by_cases hp : p a
    · rw [List.dropWhile_cons_of_pos hp]
      exact le_trans ih (Nat.le_succ _)
    · rw [List.dropWhile_cons_of_neg hp]

/-- `stripZeros` never lengthens a list. -/
lemma stripZeros_length_le (l : List Char) : (stripZeros l).length ≤ l.length := by
  unfold stripZeros
  rw [List.length_reverse, ← List.length_reverse l]
  exact length_dropWhile_le _ _

/-- A nonempty `stripZeros` keeps the original head. -/
lemma stripZeros_head? (l : List Char) (h : stripZeros l ≠ []) :
    (stripZeros l).head? = l.head? := by
  obtain ⟨t, ht, _⟩ := stripZeros_prefix l
  conv_rhs => rw [ht]
  cases hs : stripZeros l with
  | nil => exact absurd hs h
  | cons a s => rfl

/-- Every character surviving `stripZeros` was in the input. -/
lemma stripZeros_subset (l : List Char) : ∀ c ∈ stripZeros l, c ∈ l := by
  intro c hc
  obtain ⟨t, ht, _⟩ := stripZeros_prefix l
  rw [ht]
  exact List.mem_append_left t hc

/-- Powers of ten as a rational quotient. -/
lemma ten_zpow_sub (m n : ℕ) :
    (10 : ℚ) ^ ((m : ℤ) - n) = ((10 ^ m : ℕ) : ℚ) / ((10 ^ n : ℕ) : ℚ) := by
  rw [zpow_sub₀ (by norm_num : (10:ℚ) ≠ 0), zpow_natCast, zpow_natCast]
  push_cast
  ring

/-- Bracketing a quotient of naturals between the powers of ten given by
their base-10 logarithms. -/
lemma pow_log_div_bounds (a b : ℕ) (ha : a ≠ 0) (hb : b ≠ 0) :
    (10:ℚ) ^ ((Nat.log 10 a : ℤ) - Nat.log 10 b - 1) < (a:ℚ)/(b:ℚ) ∧
      (a:ℚ)/(b:ℚ) < (10:ℚ) ^ ((Nat.log 10 a : ℤ) - Nat.log 10 b + 1) := by
  have h1 : (10:ℕ) ^ Nat.log 10 a ≤ a := Nat.pow_log_le_self 10 ha
  have h2 : a < 10 ^ (Nat.log 10 a + 1) := Nat.lt_pow_succ_log_self (by norm_num) a
  have h3 : (10:ℕ) ^ Nat.log 10 b ≤ b := Nat.pow_log_le_self 10 hb
  have h4 : b < 10 ^ (Nat.log 10 b + 1) := Nat.lt_pow_succ_log_self (by norm_num) b
  have hbQ : (0:ℚ) < (b:ℚ) := by
    exact_mod_cast Nat.pos_of_ne_zero hb
  constructor
  · have he : (Nat.log 10 a : ℤ) - Nat.log 10 b - 1 =
        ((Nat.log 10 a : ℕ) : ℤ) - ((Nat.log 10 b + 1 : ℕ) : ℤ) := by
      push_cast; ring
    rw [he, ten_zpow_sub, div_lt_div_iff₀ (by positivity) hbQ]
    have hnat : 10 ^ Nat.log 10 a * b < a * 10 ^ (Nat.log 10 b + 1) := by
      calc 10 ^ Nat.log 10 a * b < 10 ^ Nat.log 10 a * 10 ^ (Nat.log 10 b + 1) :=
            mul_lt_mul_of_pos_left h4 (by positivity)
        _ ≤ a * 10 ^ (Nat.log 10 b + 1) := mul_le_mul_right' h1 _
    exact_mod_cast hnat
  · have he : (Nat.log 10 a : ℤ) - Nat.log 10 b + 1 =
        ((Nat.log 10 a + 1 : ℕ) : ℤ) - ((Nat.log 10 b : ℕ) : ℤ) := by
      push_cast; ring
    rw [he, ten_zpow_sub, div_lt_div_iff₀ hbQ (by positivity)]
    have hnat : a * 10 ^ Nat.log 10 b < 10 ^ (Nat.log 10 a + 1) * b := by
      calc a * 10 ^ Nat.log 10 b < 10 ^ (Nat.log 10 a + 1) * 10 ^ Nat.log 10 b :=
            mul_lt_mul_of_pos_right h2 (by positivity)
        _ ≤ 10 ^ (Nat.log 10 a + 1) * b := mul_le_mul_left' h3 _
    exact_mod_cast hnat

/-- Correctness of the decimal exponent: `10 ^ decExp q ≤ q < 10 ^ (decExp
q + 1)` for positive `q`. -/
lemma decExp_spec (q : ℚ) (hq : 0 < q) :
    (10 : ℚ) ^ decExp q ≤ q ∧ q < (10 : ℚ) ^ (decExp q + 1) := by
  have hnum : 0 < q.num := Rat.num_pos.mpr hq
  have ha0 : q.num.toNat ≠ 0 := by omega
  have hb0 : q.den ≠ 0 := q.den_nz
  have hq_eq : (q.num.toNat : ℚ) / (q.den : ℚ) = q := by
    have hcast : ((q.num.toNat : ℕ) : ℚ) = ((q.num : ℤ) : ℚ) := by
      exact_mod_cast congrArg (fun z : ℤ => (z : ℚ)) (Int.toNat_of_nonneg hnum.le)
    rw [hcast, Rat.num_div_den]
  obtain ⟨hlow, hup⟩ := pow_log_div_bounds q.num.toNat q.den ha0 hb0
  rw [hq_eq] at hlow hup
  have hde : decExp q =
      if (10:ℚ) ^ ((Nat.log 10 q.num.toNat : ℤ) - Nat.log 10 q.den) ≤ q then
        (Nat.log 10 q.num.toNat : ℤ) - Nat.log 10 q.den
      else (Nat.log 10 q.num.toNat : ℤ) - Nat.log 10 q.den - 1 := by
    unfold decExp
    rw [natLog10_eq _ ha0, natLog10_eq _ hb0]
  rw [hde]
  split
  next hcase => exact ⟨hcase, hup⟩
  next hcase =>
    refine ⟨hlow.le, ?_⟩
    rw [sub_add_cancel]
    exact lt_of_not_le hcase

/-- The banker's rounding of `x` is `⌊x⌋` or `⌊x⌋ + 1`. -/
lemma roundHalfEven_bounds (x : ℚ) :
    ⌊x⌋ ≤ roundHalfEven x ∧ roundHalfEven x ≤ ⌊x⌋ + 1 := by
  unfold roundHalfEven
  dsimp only
  split_ifs <;> omega

/-- The rounded significand of a positive rational is a 12-digit number. -/
lemma sig12_bounds (q : ℚ) (hq : 0 < q) :
    10 ^ 11 ≤ (sig12 q).1 ∧ (sig12 q).1 < 10 ^ 12 := by
  obtain ⟨h1, h2⟩ := decExp_spec q hq
  have hscale : (0:ℚ) < (10:ℚ) ^ ((11:ℤ) - decExp q) := by positivity
  have hx1 : (10:ℚ) ^ (11:ℤ) ≤ q * (10:ℚ) ^ ((11:ℤ) - decExp q) := by
    calc (10:ℚ) ^ (11:ℤ) = 10 ^ decExp q * 10 ^ ((11:ℤ) - decExp q) := by
          rw [← zpow_add₀ (by norm_num : (10:ℚ) ≠ 0)]
          congr 1
          ring
      _ ≤ q * 10 ^ ((11:ℤ) - decExp q) := mul_le_mul_of_nonneg_right h1 hscale.le
  have hx2 : q * (10:ℚ) ^ ((11:ℤ) - decExp q) < (10:ℚ) ^ (12:ℤ) := by
    calc q * (10:ℚ) ^ ((11:ℤ) - decExp q)
        < 10 ^ (decExp q + 1) * 10 ^ ((11:ℤ) - decExp q) :=
          mul_lt_mul_of_pos_right h2 hscale
      _ = (10:ℚ) ^ (12:ℤ) := by
          rw [← zpow_add₀ (by norm_num : (10:ℚ) ≠ 0)]
          congr 1
          ring
  have hfl : (10:ℤ) ^ 11 ≤ ⌊q * (10:ℚ) ^ ((11:ℤ) - decExp q)⌋ := by
    rw [Int.le_floor]
    calc ((10 ^ 11 : ℤ) : ℚ) = (10:ℚ) ^ (11:ℤ) := by push_cast; norm_num
      _ ≤ _ := hx1
  have hfu : ⌊q * (10:ℚ) ^ ((11:ℤ) - decExp q)⌋ < (10:ℤ) ^ 12 := by
    rw [Int.floor_lt]
    calc q * (10:ℚ) ^ ((11:ℤ) - decExp q) < (10:ℚ) ^ (12:ℤ) := hx2
      _ = ((10 ^ 12 : ℤ) : ℚ) := by push_cast; norm_num
  obtain ⟨hr1, hr2⟩ := roundHalfEven_bounds (q * (10:ℚ) ^ ((11:ℤ) - decExp q))
  unfold sig12
  dsimp only
  split
  next hcarry => exact ⟨by norm_num, by norm_num⟩
  next hcarry => exact ⟨by omega, by omega⟩

/-- The data of a constructed string. -/
lemma data_mk (l : List Char) : (String.mk l).data = l := rfl

/-- The exponent suffix starts with the character `'e'`. -/
lemma expSuffix_head (e : ℤ) : ∃ r, (expSuffix e).data = 'e' :: r := by
  unfold expSuffix
  dsimp only
  split_ifs with h1 h2 h3
  · exact ⟨'-' :: ("0" ++ natDecRepr (-e).toNat).data, rfl⟩
  · exact ⟨'-' :: (natDecRepr (-e).toNat).data, rfl⟩
  · exact ⟨'+' :: ("0" ++ natDecRepr e.toNat).data, rfl⟩
  · exact ⟨'+' :: (natDecRepr e.toNat).data, rfl⟩

/-- The rendering of a positive rational by the `%.12g` model shows at most
12 significant digits, and its fractional part (when a decimal point is
present) does not end in a zero. -/
lemma format12gPos_props (q : ℚ) (hq : 0 < q) :
    sigDigitCount (format12gPos q) ≤ 12 ∧
      ∀ c, (sigPart (format12gPos q)).getLast? = some c →
        '.' ∈ sigPart (format12gPos q) → c ≠ '0' := by
  obtain ⟨hm1, hm2⟩ := sig12_bounds q hq
  have hmN1 : 10 ^ 11 ≤ (sig12 q).1.toNat := by omega
  have hmN2 : (sig12 q).1.toNat < 10 ^ 12 := by omega
  have hlen : (digitsBE (sig12 q).1.toNat).length = 12 := digitsBE_length _ hmN1 hmN2
  set ds := digitsBE (sig12 q).1.toNat with hds
  set e := (sig12 q).2 with hedef
  have hmem : ∀ c ∈ ds, c.isDigit = true ∧ c ≠ 'e' ∧ c ≠ '.' := by
    intro c hc
    obtain ⟨d, hd, rfl⟩ := digitsBE_mem _ _ (hds ▸ hc)
    obtain ⟨_, h1, h2, h3, _, _⟩ := digitChar10_facts d hd
    exact ⟨h1, h2, h3⟩
  have hne : ∀ c ∈ ds, (!(c == 'e')) = true := fun c hc => by
    simpa using (hmem c hc).2.1
  have hhead0 : ∀ c, ds.head? = some c → c ≠ '0' := by
    rw [hds]
    exact digitsBE_head_ne_zero _ (by omega)
  unfold format12gPos
  dsimp only
  rw [← hds, ← hedef]
  split
  case isTrue hA =>
    obtain ⟨r, hr⟩ := expSuffix_head e
    by_cases hfrac : stripZeros (ds.drop 1) = []
    · rw [if_pos hfrac]
      have hsig : sigPart (String.mk (ds.take 1 ++ []) ++ expSuffix e) = ds.take 1 := by
        unfold sigPart
        rw [String.data_append, data_mk, hr, List.append_nil,
          takeWhile_append_all _ _ _
            (fun c hc => hne c (List.mem_of_mem_take hc)),
          List.takeWhile_cons_of_neg (by decide), List.append_nil]
      constructor
      · unfold sigDigitCount
        rw [hsig]
        calc ((((ds.take 1).filter (fun c => c.isDigit))).dropWhile
              (fun c => c == '0')).length
            ≤ ((ds.take 1).filter (fun c => c.isDigit)).length :=
              length_dropWhile_le _ _
          _ ≤ (ds.take 1).length := List.length_filter_le _ _
          _ ≤ 1 := by simp
          _ ≤ 12 := by norm_num
      · intro c _ hdot
        rw [hsig] at hdot
        exact absurd rfl (hmem '.' (List.mem_of_mem_take hdot)).2.2
    · rw [if_neg hfrac]
      have hallp : ∀ c ∈ ds.take 1 ++ '.' :: stripZeros (ds.drop 1),
          (!(c == 'e')) = true := by
        intro c hc
        rcases List.mem_append.mp hc with hc | hc
        · exact hne c (List.mem_of_mem_take hc)
        · rcases List.mem_cons.mp hc with rfl | hc
          · decide
          · exact hne c (List.mem_of_mem_drop (stripZeros_subset _ c hc))
      have hsig : sigPart (String.mk
            (ds.take 1 ++ '.' :: stripZeros (ds.drop 1)) ++ expSuffix e) =
          ds.take 1 ++ '.' :: stripZeros (ds.drop 1) := by
        unfold sigPart
        rw [String.data_append, data_mk, hr,
          show (ds.take 1 ++ '.' :: stripZeros (ds.drop 1)) ++ 'e' :: r =
            (ds.take 1 ++ '.' :: stripZeros (ds.drop 1)) ++ 'e' :: r from rfl,
          takeWhile_append_all _ _ _ hallp,
          List.takeWhile_cons_of_neg (by decide), List.append_nil]
      constructor
      · unfold sigDigitCount
        rw [hsig, List.filter_append,
          show ('.' :: stripZeros (ds.drop 1)).filter (fun c => c.isDigit) =
            (stripZeros (ds.drop 1)).filter (fun c => c.isDigit) by
              rw [List.filter_cons_of_neg (by decide)]]
        calc _ ≤ ((ds.take 1).filter (fun c => c.isDigit) ++
              (stripZeros (ds.drop 1)).filter (fun c => c.isDigit)).length :=
              length_dropWhile_le _ _
          _ = ((ds.take 1).filter (fun c => c.isDigit)).length +
              ((stripZeros (ds.drop 1)).filter (fun c => c.isDigit)).length := by
              rw [List.length_append]
          _ ≤ (ds.take 1).length + (stripZeros (ds.drop 1)).length :=
              Nat.add_le_add (List.length_filter_le _ _) (List.length_filter_le _ _)
          _ ≤ 1 + (ds.drop 1).length :=
              Nat.add_le_add (by simp) (stripZeros_length_le _)
          _ ≤ 12 := by simp [hlen]
      · intro c hlast _
        rw [hsig, List.getLast?_append_of_ne_nil _ (by simp),
          show ('.' :: stripZeros (ds.drop 1)) = ['.'] ++ stripZeros (ds.drop 1)
            from rfl,
          List.getLast?_append_of_ne_nil _ hfrac] at hlast
        exact stripZeros_getLast_ne _ c hlast
  case isFalse hA =>
    push_neg at hA
    split
    case isTrue hB =>
      have he12 : e.toNat + 1 ≤ 12 := by omega
      by_cases hfp : stripZeros (ds.drop (e.toNat + 1)) = []
      · rw [if_pos hfp]
        have hsig : sigPart (String.mk (ds.take (e.toNat + 1) ++ [])) =
            ds.take (e.toNat + 1) := by
          unfold sigPart
          rw [data_mk, List.append_nil,
            takeWhile_eq_self_of_all _ _
              (fun c hc => hne c (List.mem_of_mem_take hc))]
        constructor
        · unfold sigDigitCount
          rw [hsig]
          calc _ ≤ ((ds.take (e.toNat + 1)).filter (fun c => c.isDigit)).length :=
                length_dropWhile_le _ _
            _ ≤ (ds.take (e.toNat + 1)).length := List.length_filter_le _ _
            _ ≤ e.toNat + 1 := by simp
            _ ≤ 12 := he12
        · intro c _ hdot
          rw [hsig] at hdot
          exact absurd rfl (hmem '.' (List.mem_of_mem_take hdot)).2.2
      · rw [if_neg hfp]
        have hallp : ∀ c ∈ ds.take (e.toNat + 1) ++
            '.' :: stripZeros (ds.drop (e.toNat + 1)), (!(c == 'e')) = true := by
          intro c hc
          rcases List.mem_append.mp hc with hc | hc
          · exact hne c (List.mem_of_mem_take hc)
          · rcases List.mem_cons.mp hc with rfl | hc
            · decide
            · exact hne c (List.mem_of_mem_drop (stripZeros_subset _ c hc))
        have hsig : sigPart (String.mk (ds.take (e.toNat + 1) ++
              '.' :: stripZeros (ds.drop (e.toNat + 1)))) =
            ds.take (e.toNat + 1) ++ '.' :: stripZeros (ds.drop (e.toNat + 1)) := by
          unfold sigPart
          rw [data_mk, takeWhile_eq_self_of_all _ _ hallp]
        constructor
        · unfold sigDigitCount
          rw [hsig, List.filter_append,
            show ('.' :: stripZeros (ds.drop (e.toNat + 1))).filter
                (fun c => c.isDigit) =
              (stripZeros (ds.drop (e.toNat + 1))).filter (fun c => c.isDigit) by
                rw [List.filter_cons_of_neg (by decide)]]
          calc _ ≤ ((ds.take (e.toNat + 1)).filter (fun c => c.isDigit) ++
                (stripZeros (ds.drop (e.toNat + 1))).filter
                  (fun c => c.isDigit)).length :=
                length_dropWhile_le _ _
            _ = ((ds.take (e.toNat + 1)).filter (fun c => c.isDigit)).length +
                ((stripZeros (ds.drop (e.toNat + 1))).filter
                  (fun c => c.isDigit)).length := by
                rw [List.length_append]
            _ ≤ (ds.take (e.toNat + 1)).length +
                (stripZeros (ds.drop (e.toNat + 1))).length :=
                Nat.add_le_add (List.length_filter_le _ _) (List.length_filter_le _ _)
            _ ≤ (e.toNat + 1) + (ds.drop (e.toNat + 1)).length :=
                Nat.add_le_add (by simp) (stripZeros_length_le _)
            _ ≤ (e.toNat + 1) + (12 - (e.toNat + 1)) := by simp [hlen]
            _ ≤ 12 := by omega
        · intro c hlast _
          rw [hsig, List.getLast?_append_of_ne_nil _ (by simp),
            show ('.' :: stripZeros (ds.drop (e.toNat + 1))) =
              ['.'] ++ stripZeros (ds.drop (e.toNat + 1)) from rfl,
            List.getLast?_append_of_ne_nil _ hfp] at hlast
          exact stripZeros_getLast_ne _ c hlast
    case isFalse hB =>
      have hdsne : ds ≠ [] := by
        intro h0
        rw [h0] at hlen
        cases hlen
      have hstrip : stripZeros ds ≠ [] := by
        intro hnil
        rw [stripZeros_eq_nil_iff] at hnil
        cases hcons : ds with
        | nil => exact hdsne hcons
        | cons a l =>
          refine hhead0 a ?_ (hnil a (by rw [hcons]; exact List.mem_cons_self a l))
          rw [hcons]
          rfl
      have hallp : ∀ c ∈ '0' :: '.' ::
          (List.replicate (-e - 1).toNat '0' ++ stripZeros ds),
          (!(c == 'e')) = true := by
        intro c hc
        rcases List.mem_cons.mp hc with rfl | hc
        · decide
        rcases List.mem_cons.mp hc with rfl | hc
        · decide
        rcases List.mem_append.mp hc with hc | hc
        · rw [List.eq_of_mem_replicate hc]
          decide
        · exact hne c (stripZeros_subset _ c hc)
      have hsig : sigPart (String.mk ('0' :: '.' ::
            (List.replicate (-e - 1).toNat '0' ++ stripZeros ds))) =
          '0' :: '.' :: (List.replicate (-e - 1).toNat '0' ++ stripZeros ds) := by
        unfold sigPart
        rw [data_mk, takeWhile_eq_self_of_all _ _ hallp]
      have hstriphead : ∀ b s, stripZeros ds = b :: s → (b == '0') = false := by
        intro b s hbs
        have h1 : (stripZeros ds).head? = ds.head? := stripZeros_head? ds hstrip
        rw [hbs] at h1
        have := hhead0 b h1.symm
        simpa using this
      constructor
      · unfold sigDigitCount
        rw [hsig,
          show ('0' :: '.' ::
              (List.replicate (-e - 1).toNat '0' ++ stripZeros ds)).filter
              (fun c => c.isDigit) =
            '0' :: (List.replicate (-e - 1).toNat '0' ++ stripZeros ds).filter
              (fun c => c.isDigit) by
            rw [List.filter_cons_of_pos (by decide), List.filter_cons_of_neg (by decide)],
          List.filter_append,
          List.filter_eq_self.mpr (fun c hc => by
            rw [List.eq_of_mem_replicate hc]; decide),
          List.filter_eq_self.mpr (fun c hc => (hmem c (stripZeros_subset _ c hc)).1),
          show ('0' :: (List.replicate (-e - 1).toNat '0' ++ stripZeros ds)) =
            ('0' :: List.replicate (-e - 1).toNat '0') ++ stripZeros ds by simp,
          dropWhile_append_all _ _ _ (fun c hc => by
            rcases List.mem_cons.mp hc with rfl | hc
            · decide
            · rw [List.eq_of_mem_replicate hc]; decide)]
        cases hcons : stripZeros ds with
        | nil => exact absurd hcons hstrip
        | cons b s =>
          rw [List.dropWhile_cons_of_neg (by simp [hstriphead b s hcons]), ← hcons]
          calc (stripZeros ds).length ≤ ds.length := stripZeros_length_le ds
            _ = 12 := hlen
      · intro c hlast _
        rw [hsig,
          show ('0' :: '.' ::
              (List.replicate (-e - 1).toNat '0' ++ stripZeros ds)) =
            ('0' :: '.' :: List.replicate (-e - 1).toNat '0') ++ stripZeros ds by simp,
          List.getLast?_append_of_ne_nil _ hstrip] at hlast
        exact stripZeros_getLast_ne _ c hlast

/-- Decimal renderings of naturals contain no decimal point. -/
lemma dot_not_mem_natDecRepr (n : ℕ) : '.' ∉ (natDecRepr n).data := by
  intro h
  obtain ⟨d, hd, hcd⟩ := natDecRepr_chars n '.' h
  exact (digitChar10_facts d hd).2.2.2.1 hcd.symm

/-- Decimal renderings of integers contain no decimal point. -/
lemma dot_not_mem_intDecRepr (n : ℤ) : '.' ∉ (intDecRepr n).data := by
  unfold intDecRepr
  split
  · intro h
    rw [show ("-" ++ natDecRepr (-n).toNat).data =
      '-' :: (natDecRepr (-n).toNat).data from rfl] at h
    rcases List.mem_cons.mp h with h | h
    · exact absurd h (by decide)
    · exact dot_not_mem_natDecRepr _ h
  · exact dot_not_mem_natDecRepr _

/-- The 12-significant-digit properties transfer through the sign
prefix. -/
lemma format12g_props (q : ℚ) (hq : q ≠ 0) :
    sigDigitCount (format12g q) ≤ 12 ∧
      ∀ c, (sigPart (format12g q)).getLast? = some c →
        '.' ∈ sigPart (format12g q) → c ≠ '0' := by
  unfold format12g
  split
  case isTrue hneg =>
    obtain ⟨h1, h2⟩ := format12gPos_props (-q) (by linarith)
    have hsig : sigPart ("-" ++ format12gPos (-q)) =
        '-' :: sigPart (format12gPos (-q)) := by
      unfold sigPart
      rw [show ("-" ++ format12gPos (-q)).data =
        '-' :: (format12gPos (-q)).data from rfl,
        List.takeWhile_cons_of_pos (by decide)]
    constructor
    · unfold sigDigitCount at h1 ⊢
      rw [hsig, List.filter_cons_of_neg (by decide)]
      exact h1
    · intro c hlast hdot
      rw [hsig] at hlast hdot
      have hdot' : '.' ∈ sigPart (format12gPos (-q)) := by
        rcases List.mem_cons.mp hdot with h | h
        · exact absurd h (by decide)
        · exact h
      have hsne : sigPart (format12gPos (-q)) ≠ [] := by
        intro h0
        rw [h0] at hdot'
        cases hdot'
      rw [show ('-' :: sigPart (format12gPos (-q))) =
          ['-'] ++ sigPart (format12gPos (-q)) from rfl,
        List.getLast?_append_of_ne_nil _ hsne] at hlast
      exact h2 c hlast hdot'
  case isFalse hneg =>
    exact format12gPos_props q (lt_of_le_of_ne (not_lt.mp hneg) (Ne.symm hq))

/-- C6: the formatter renders a whole-valued floating result as a plain
integer string with no decimal point; every other floating result through
the `.12g` conversion, which shows at most 12 significant digits and no
trailing zero in the fractional part; and an exact-integer result as its
exact decimal integer string — reading the rendered string back recovers
the integer, at any magnitude. -/
theorem format_result_spec :
    (∀ q : ℚ, q.den = 1 →
        format_result (.float q) = intDecRepr q.num ∧
          '.' ∉ (format_result (.float q)).data ∧
          decStrVal (format_result (.float q)) = q.num) ∧
      (∀ q : ℚ, q.den ≠ 1 →
        format_result (.float q) = format12g q ∧
          sigDigitCount (format_result (.float q)) ≤ 12 ∧
          (∀ c, (sigPart (format_result (.float q))).getLast? = some c →
            '.' ∈ sigPart (format_result (.float q)) → c ≠ '0')) ∧
      (∀ n : ℤ, format_result (.int n) = intDecRepr n ∧
        decStrVal (format_result (.int n)) = n) := by
  refine ⟨?_, ?_, fun n => ⟨rfl, decStrVal_intDecRepr n⟩⟩
  · intro q hq
    have h : format_result (.float q) = intDecRepr q.num := by
      show (if q.den = 1 then intDecRepr q.num else format12g q) = intDecRepr q.num
      rw [if_pos hq]
    refine ⟨h, ?_, ?_⟩
    · rw [h]
      exact dot_not_mem_intDecRepr _
    · rw [h]
      exact decStrVal_intDecRepr _
  · intro q hq
    have h : format_result (.float q) = format12g q := by
      show (if q.den = 1 then intDecRepr q.num else format12g q) = format12g q
      rw [if_neg hq]
    have hq0 : q ≠ 0 := fun h0 => hq (by rw [h0]; rfl)
    obtain ⟨h1, h2⟩ := format12g_props q hq0
    rw [h]
    exact ⟨rfl, h1, h2⟩

/-- Witness for `format_result_spec` at the concrete values 4.0, 2.5 and
the integer 120. -/
theorem format_result_spec_witness :
    format_result (.float 4) = intDecRepr (4:ℚ).num ∧
      format_result (.float (5/2)) = format12g (5/2) ∧
      format_result (.int 120) = intDecRepr 120 :=
  ⟨(format_result_spec.1 4 (by decide)).1,
   (format_result_spec.2.1 (5/2) (by decide)).1,
   (format_result_spec.2.2 120).1⟩
